import Mathlib

/-!
A shallow embedding of the library-map core of the klayout-library-manager
plugin: the configuration data model and recursive include resolution of
`pymacros/library_map_config.py`, and the change-reconciliation algorithm of
`pymacros/library_map_changes.py`, together with theorems about the
properties these algorithms do and do not satisfy.

Filesystem access (existence checks, readability probes, parsing of included
configuration files) is modelled by an explicit `FileSystem` record of
(pure) query functions, and the unbounded include recursion is modelled with
an explicit fuel parameter: running out of fuel is reported as a dedicated
error value, so that divergence of the Python recursion corresponds exactly
to `outOfFuel` for every fuel value.
-/

namespace LibMgr

/-! ### Paths

Python `pathlib.Path` values are modelled as an absolute-flag plus a list of
components.  `~`-expansion (actually done by the external helper
`expand_path` of klayout_plugin_utils) and canonicalization (`.resolve()`)
are modelled against an explicit environment carrying the user home and the
process working directory. -/

structure Path where
  absolute : Bool
  comps : List String
deriving DecidableEq, Repr

structure PathEnv where
  /-- components of the (absolute) user home directory used for `~` expansion -/
  home : List String
  /-- current working directory of the process, used by `Path.resolve()` and
  by raw `Path.is_file()` checks on relative paths -/
  cwd : Path
deriving DecidableEq, Repr

/-- `Path(base) / p` for a relative `p` (plain component concatenation). -/
def Path.join (base p : Path) : Path :=
  ⟨base.absolute, base.comps ++ p.comps⟩

/-- One step of lexical canonicalization: `.` and empty components vanish,
`..` pops the previously accumulated component (at the root it is dropped,
as `/.. = /`).  The accumulator is kept reversed. -/
def canonStep (acc : List String) (c : String) : List String :=
  if c = "." || c = "" then acc
  else if c = ".." then acc.tail
  else c :: acc

/-- Lexical canonicalization of a path (the symlink-free content of Python's
`Path.resolve()` once the path is absolute). -/
def Path.canonical (p : Path) : Path :=
  ⟨p.absolute, (p.comps.foldl canonStep []).reverse⟩

/-- Python `Path.resolve()`: a relative path is first made absolute against
the process working directory, then canonicalized.  With `strict=False`
(the default) this never fails for a missing target. -/
def Path.pyResolve (env : PathEnv) (p : Path) : Path :=
  (if p.absolute then p else env.cwd.join p).canonical

/-- Python `Path.parent`: drop the last component. -/
def Path.parent (p : Path) : Path :=
  ⟨p.absolute, p.comps.dropLast⟩

/-- Modelled from the spec: `expand_path` lives in the external
`klayout_plugin_utils.path_helpers` package, which is not part of this
repository's sources; §4.1 of the spec says it "expands user-home shorthand
and environment-style prefixes first".  We model the `~` user-home prefix
expansion of a relative path; environment-variable expansion is not modelled
(no claim depends on it). -/
def expand_path (env : PathEnv) (p : Path) : Path :=
  match p.comps with
  | "~" :: rest => if p.absolute then p else ⟨true, env.home ++ rest⟩
  | _ => p

/-! ### Statement model (`library_map_config.py`, lines 38-58) -/

structure LibraryMapComment where
  comment : String
deriving DecidableEq, Repr

structure LibraryDefinition where
  lib_name : String
  lib_path : Path
deriving DecidableEq, Repr

structure LibraryMapInclude where
  include_path : Path
deriving DecidableEq, Repr

/-- The tagged union `LibraryMapStatement = Union[LibraryMapComment,
LibraryDefinition, LibraryMapInclude]`. -/
inductive LibraryMapStatement where
  | comment (c : LibraryMapComment)
  | definition (d : LibraryDefinition)
  | includeStmt (i : LibraryMapInclude)
deriving DecidableEq, Repr

/-! ### Issues (`library_map_config.py`, lines 62-65) -/

structure LibraryMapIssues where
  failed_libraries : List (LibraryDefinition × String) := []
  failed_includes : List (LibraryMapInclude × String) := []
deriving DecidableEq, Repr

/-! ### Configuration (`library_map_config.py`, lines 85-196) -/

structure LibraryMapConfig where
  technology : String := ""
  statements : List LibraryMapStatement := []
deriving DecidableEq, Repr

/-- The filesystem as seen by resolution: pure query functions standing for
the `Path.exists()` / `Path.is_file()` / open-and-read probes and for
`LibraryMapConfig.read_json` (whose result is `none` when the file's content
cannot be parsed as a configuration, i.e. when `read_json` raises). -/
structure FileSystem where
  env : PathEnv
  /-- Python `path.exists()` -/
  pathExists : Path → Bool
  /-- Python `path.is_file()` (false for a nonexistent path) -/
  isFile : Path → Bool
  /-- whether opening the file and reading its first bytes succeeds -/
  readable : Path → Bool
  /-- `LibraryMapConfig.read_json path`; `none` models a raised parse error -/
  config : Path → Option LibraryMapConfig

/-- `LibraryMapConfig.resolve_path` (lines 145-151): expand, join under the
base folder when relative, then `resolve()`.  The function consults no
filesystem state, so a missing target can never make it raise. -/
def LibraryMapConfig.resolve_path (env : PathEnv) (path : Path) (base_folder : Path) : Path :=
  let path := expand_path env path
  let path := if !path.absolute then base_folder.join path else path
  path.pyResolve env

/-- `LibraryMapConfig.validate_path` (lines 153-168) with the default
`read_bytes = 4 > 0`, so the readability probe is active.  The model keeps
the `Unreadable` reason as a constant string (the source interpolates the
caught exception's text). -/
def LibraryMapConfig.validate_path (fs : FileSystem) (path : Path) : Option String :=
  if !fs.pathExists path then some "File does not exist"
  else if !fs.isFile path then some "Not a regular file"
  else if !fs.readable path then some "Unreadable" else none

/-- Python `p.is_file()` on a possibly relative path, as used by the raw
include pre-check on line 186: the OS stats the path relative to the process
working directory. -/
def pyIsFile (fs : FileSystem) (p : Path) : Bool :=
  fs.isFile (p.pyResolve fs.env)

/-- Errors with which modelled resolution can abort: `parseFailure p` stands
for the exception propagated when `read_json p` raises on a structurally
malformed include target, and `outOfFuel` stands for exhausting the fuel
that stands in for the unbounded Python recursion depth. -/
inductive ResolutionError where
  | outOfFuel
  | parseFailure (path : Path)
deriving DecidableEq, Repr

/-- The statement loop of `LibraryMapConfig.effective_library_definitions`
(lines 176-196), with the mutable `libs` list and `issues` accumulator made
explicit.  `recur` stands for the recursive call
`config.effective_library_definitions(base_folder=path.parent, issues=issues)`
on line 195; it is supplied by `effective_library_definitions` below, which
ties the knot through an explicit fuel bound. -/
def effList (fs : FileSystem)
    (recur : LibraryMapConfig → Path → LibraryMapIssues →
      Except ResolutionError (List LibraryDefinition × LibraryMapIssues)) :
    List LibraryMapStatement → Path → LibraryMapIssues →
      Except ResolutionError (List LibraryDefinition × LibraryMapIssues)
  | [], _, issues => .ok ([], issues)
  | .comment _ :: rest, base_folder, issues => effList fs recur rest base_folder issues
  | .definition s :: rest, base_folder, issues =>
      let lib_path := LibraryMapConfig.resolve_path fs.env s.lib_path base_folder
      let issues :=
        match LibraryMapConfig.validate_path fs lib_path with
        | some issue =>
            { issues with failed_libraries := issues.failed_libraries ++ [(s, issue)] }
        | none => issues
      match effList fs recur rest base_folder issues with
      | .error e => .error e
      | .ok (libs, issues) => .ok (⟨s.lib_name, lib_path⟩ :: libs, issues)
  | .includeStmt s :: rest, base_folder, issues =>
      if !pyIsFile fs s.include_path then
        -- lines 186-188: raw, unresolved is_file() pre-check; on failure the
        -- include is skipped with only a printed message, no issue entry
        effList fs recur rest base_folder issues
      else
        let path := LibraryMapConfig.resolve_path fs.env s.include_path base_folder
        match LibraryMapConfig.validate_path fs path with
        | some issue =>
            effList fs recur rest base_folder
              { issues with failed_includes := issues.failed_includes ++ [(s, issue)] }
        | none =>
            match fs.config path with
            | none => .error (.parseFailure path)
            | some cfg =>
                match recur cfg path.parent issues with
                | .error e => .error e
                | .ok (libs1, issues) =>
                    match effList fs recur rest base_folder issues with
                    | .error e => .error e
                    | .ok (libs2, issues) => .ok (libs1 ++ libs2, issues)

/-- `LibraryMapConfig.effective_library_definitions` (lines 170-196), with
an explicit fuel bound on the include recursion depth: each recursion into
an include file runs with one unit less, and a recursion attempted with no
fuel left reports `outOfFuel`. -/
def LibraryMapConfig.effective_library_definitions (fs : FileSystem) (fuel : Nat)
    (self : LibraryMapConfig) (base_folder : Path) (issues : LibraryMapIssues) :
    Except ResolutionError (List LibraryDefinition × LibraryMapIssues) :=
  match fuel with
  | 0 => effList fs (fun _ _ _ => .error .outOfFuel) self.statements base_folder issues
  | n + 1 =>
      effList fs (fun cfg p i => LibraryMapConfig.effective_library_definitions fs n cfg p i)
        self.statements base_folder issues

/-! ### Python dictionaries and sets

`compare` builds `dict` comprehensions keyed by path and by name and a
`set` of handled definitions.  A Python dict keeps keys in first-insertion
order while a later insertion of an existing key overwrites its value in
place; iteration and `get` follow from that.  A Python set is modelled as an
insertion-ordered duplicate-free list (only membership is consumed). -/

def pyDictInsert {K V : Type} [DecidableEq K] (d : List (K × V)) (k : K) (v : V) :
    List (K × V) :=
  if d.any (fun kv => kv.1 = k) then
    d.map (fun kv => if kv.1 = k then (k, v) else kv)
  else d ++ [(k, v)]

def pyDictOf {A K V : Type} [DecidableEq K] (f : A → K × V) (xs : List A) :
    List (K × V) :=
  xs.foldl (fun d a => pyDictInsert d (f a).1 (f a).2) []

def pyDictGet {K V : Type} [DecidableEq K] (d : List (K × V)) (k : K) : Option V :=
  (d.find? (fun kv => kv.1 = k)).map (fun kv => kv.2)

def pySetAdd {A : Type} [DecidableEq A] (s : List A) (a : A) : List A :=
  if a ∈ s then s else s ++ [a]

/-! ### Change reconciliation (`library_map_changes.py`) -/

/-- `LibraryMapChanges` (lines 39-44): the ChangeSet.  Note that the
dataclass has exactly these four fields and no `issues` field. -/
structure LibraryMapChanges where
  added_libs : List LibraryDefinition := []
  removed_libs : List LibraryDefinition := []
  renamed_libs : List (LibraryDefinition × LibraryDefinition) := []
  repathed_libs : List (LibraryDefinition × LibraryDefinition) := []
deriving DecidableEq, Repr

/-- Loop state of the classification loops in `compare` (lines 61-85): the
four accumulating lists plus the `handled_new_lib_defs` set. -/
structure CompareState where
  added : List LibraryDefinition := []
  removed : List LibraryDefinition := []
  renamed : List (LibraryDefinition × LibraryDefinition) := []
  repathed : List (LibraryDefinition × LibraryDefinition) := []
  handled : List LibraryDefinition := []
deriving DecidableEq, Repr

/-- Body of the first loop of `compare` (lines 68-80), processing one
`(path, old_def)` item of `old_lib_defs_by_path`. -/
def phase1Step (new_lib_defs_by_path : List (Path × LibraryDefinition))
    (new_lib_defs_by_name : List (String × LibraryDefinition))
    (st : CompareState) (item : Path × LibraryDefinition) : CompareState :=
  let old_def := item.2
  match pyDictGet new_lib_defs_by_path item.1 with
  | none =>
      match pyDictGet new_lib_defs_by_name old_def.lib_name with
      | some new_def_for_name =>
          { st with repathed := st.repathed ++ [(old_def, new_def_for_name)],
                    handled := pySetAdd st.handled new_def_for_name }
      | none => { st with removed := st.removed ++ [old_def] }
  | some new_def =>
      let st :=
        if old_def ≠ new_def then
          { st with renamed := st.renamed ++ [(old_def, new_def)] }
        else st
      { st with handled := pySetAdd st.handled new_def }

/-- Body of the second loop of `compare` (lines 82-85), processing one
definition of `new_lib_defs`. -/
def phase2Step (st : CompareState) (new_def : LibraryDefinition) : CompareState :=
  if new_def ∈ st.handled then st
  else { st with handled := pySetAdd st.handled new_def,
                 added := st.added ++ [new_def] }

/-- The classification portion of `LibraryMapChanges.compare` (lines
57-90), parameterized by the two resolved definition lists that the calls
on lines 54-55 were intended to produce.  This is the algorithm the claims
about reconciliation quantify over. -/
def LibraryMapChanges.compareResolved
    (old_lib_defs new_lib_defs : List LibraryDefinition) : LibraryMapChanges :=
  let old_lib_defs_by_path := pyDictOf (fun ld => (ld.lib_path, ld)) old_lib_defs
  let new_lib_defs_by_path := pyDictOf (fun ld => (ld.lib_path, ld)) new_lib_defs
  let new_lib_defs_by_name := pyDictOf (fun ld => (ld.lib_name, ld)) new_lib_defs
  let st := old_lib_defs_by_path.foldl
    (phase1Step new_lib_defs_by_path new_lib_defs_by_name) {}
  let st := new_lib_defs.foldl phase2Step st
  { added_libs := st.added, removed_libs := st.removed,
    renamed_libs := st.renamed, repathed_libs := st.repathed }

/-- The Python exceptions that `LibraryMapChanges.compare` can raise before
producing a value. -/
inductive PyError where
  | typeErrorMissingIssuesArgument
deriving DecidableEq, Repr

/-- `LibraryMapChanges.compare` (lines 46-90).  Its first statement, line
54, is `new_lib_defs = new_config.effective_library_definitions(base_folder)`;
the method `effective_library_definitions(self, base_folder, issues)` has no
default for `issues`, so this call raises
`TypeError: effective_library_definitions() missing 1 required positional
argument: 'issues'` before any comparison work happens, on every input. -/
def LibraryMapChanges.compare (_base_folder : Path)
    (_old_config _new_config : LibraryMapConfig) :
    Except PyError LibraryMapChanges :=
  .error .typeErrorMissingIssuesArgument

/-! ### Serialization

The JSON helpers used by `json_string` / `from_json_string`
(`dataclass_from_dict`, `JSONEncoderSupportingPaths` from the external
klayout_plugin_utils package) are not part of this repository's sources.
Following §6 of the spec, the serialized form is modelled as a JSON value
holding `technology` and an ordered list of tagged statement records with
`kind` in comment / library / include, paths serialized as plain strings. -/

inductive JValue where
  | str (s : String)
  | arr (xs : List JValue)
  | obj (kvs : List (String × JValue))

/-- Join character lists with a separator character. -/
def joinChar (sep : Char) : List (List Char) → List Char
  | [] => []
  | [p] => p
  | p :: q :: ps => p ++ sep :: joinChar sep (q :: ps)

/-- Split a character list at a separator character. -/
def splitOnChar (sep : Char) : List Char → List (List Char)
  | [] => [[]]
  | c :: cs =>
      let r := splitOnChar sep cs
      if c = sep then [] :: r
      else
        match r with
        | [] => [[c]]
        | h :: t => (c :: h) :: t

/-- Character-level rendering of a path: components joined by `/`, with a
leading `/` when absolute. -/
def renderChars (p : Path) : List Char :=
  (if p.absolute then ['/'] else []) ++ joinChar '/' (p.comps.map String.data)

/-- Character-level parsing of a rendered path. -/
def parseChars : List Char → Path
  | [] => ⟨false, []⟩
  | c :: cs =>
      if c = '/' then
        ⟨true, if cs = [] then [] else (splitOnChar '/' cs).map String.mk⟩
      else ⟨false, (splitOnChar '/' (c :: cs)).map String.mk⟩

/-- Render a path as the plain string Python would serialize. -/
def Path.render (p : Path) : String :=
  String.mk (renderChars p)

/-- Parse a rendered path string back into a `Path`. -/
def Path.parse (s : String) : Path :=
  parseChars s.data

/-- A path is well formed when every component is nonempty and contains no
separator — the invariant `pathlib.PurePath` maintains for its parts. -/
def Path.WF (p : Path) : Prop :=
  ∀ c ∈ p.comps, c.data ≠ [] ∧ '/' ∉ c.data

/-- Statements are well formed when the paths they carry are. -/
def LibraryMapStatement.WF : LibraryMapStatement → Prop
  | .comment _ => True
  | .definition d => d.lib_path.WF
  | .includeStmt i => i.include_path.WF

/-- A configuration is well formed when all its statements are. -/
def LibraryMapConfig.WF (c : LibraryMapConfig) : Prop :=
  ∀ s ∈ c.statements, s.WF

/-- Modelled from the spec: serialization of one statement as a tagged
record per §6 ("statements: [ { kind, ...fields } ], kind in
comment / library / include"). -/
def serializeStatement : LibraryMapStatement → JValue
  | .comment c => .obj [("kind", .str "comment"), ("comment", .str c.comment)]
  | .definition d => .obj [("kind", .str "library"), ("lib_name", .str d.lib_name),
      ("lib_path", .str d.lib_path.render)]
  | .includeStmt i => .obj [("kind", .str "include"),
      ("include_path", .str i.include_path.render)]

/-- Field lookup in a serialized JSON object. -/
def jGet (kvs : List (String × JValue)) (k : String) : Option JValue :=
  (kvs.find? (fun kv => kv.1 = k)).map (fun kv => kv.2)

/-- Modelled from the spec: parsing of one tagged statement record
(the external `dataclass_from_dict` reconstructing the statement union). -/
def parseStatement (j : JValue) : Option LibraryMapStatement :=
  match j with
  | .obj kvs =>
      match jGet kvs "kind" with
      | some (.str "comment") =>
          match jGet kvs "comment" with
          | some (.str c) => some (.comment ⟨c⟩)
          | _ => none
      | some (.str "library") =>
          match jGet kvs "lib_name", jGet kvs "lib_path" with
          | some (.str n), some (.str p) => some (.definition ⟨n, Path.parse p⟩)
          | _, _ => none
      | some (.str "include") =>
          match jGet kvs "include_path" with
          | some (.str p) => some (.includeStmt ⟨Path.parse p⟩)
          | _ => none
      | _ => none
  | _ => none

/-- Modelled from the spec: `LibraryMapConfig.json_string` (lines 134-135),
serializing the technology tag and the ordered statement list per §6. -/
def LibraryMapConfig.json_string (c : LibraryMapConfig) : JValue :=
  .obj [("technology", .str c.technology),
        ("statements", .arr (c.statements.map serializeStatement))]

/-- Modelled from the spec: `LibraryMapConfig.from_json_string`
(lines 125-128), parsing a serialized configuration back. -/
def LibraryMapConfig.from_json_string (j : JValue) : Option LibraryMapConfig :=
  match j with
  | .obj kvs =>
      match jGet kvs "technology", jGet kvs "statements" with
      | some (.str t), some (.arr l) =>
          match l.mapM parseStatement with
          | some stmts => some ⟨t, stmts⟩
          | none => none
      | _, _ => none
  | _ => none

/-! ### Auxiliary predicates for the theorems -/

/-- The include nesting reachable from `cfg` resolved against `base` is
bounded by `n`: every include statement that passes the raw file pre-check,
validates, and parses leads to a configuration whose own nesting is bounded
by `n - 1`.  A configuration whose reachable include graph is finite and
acyclic satisfies this for `n` = its maximal include-chain length + 1. -/
inductive IncludeDepthLE (fs : FileSystem) : LibraryMapConfig → Path → Nat → Prop where
  | step (cfg : LibraryMapConfig) (base : Path) (n : Nat)
      (h : ∀ inc cfg2, LibraryMapStatement.includeStmt inc ∈ cfg.statements →
           pyIsFile fs inc.include_path = true →
           LibraryMapConfig.validate_path fs
             (LibraryMapConfig.resolve_path fs.env inc.include_path base) = none →
           fs.config (LibraryMapConfig.resolve_path fs.env inc.include_path base) =
             some cfg2 →
           IncludeDepthLE fs cfg2
             (LibraryMapConfig.resolve_path fs.env inc.include_path base).parent n) :
      IncludeDepthLE fs cfg base (n + 1)

/-- `b` extends `a`: both issue lists of `b` are the corresponding lists of
`a` with entries appended at the end only. -/
def IssuesExtend (a b : LibraryMapIssues) : Prop :=
  (∃ t1, b.failed_libraries = a.failed_libraries ++ t1) ∧
  (∃ t2, b.failed_includes = a.failed_includes ++ t2)

/-- Exactly one of four propositions holds. -/
def ExactlyOne (a b c d : Prop) : Prop :=
  (a ∨ b ∨ c ∨ d) ∧ ¬(a ∧ b) ∧ ¬(a ∧ c) ∧ ¬(a ∧ d) ∧
    ¬(b ∧ c) ∧ ¬(b ∧ d) ∧ ¬(c ∧ d)

/-- An old definition appears as the old side of a renamed pair. -/
def renamedOldSide (cs : LibraryMapChanges) (d : LibraryDefinition) : Prop :=
  ∃ pr ∈ cs.renamed_libs, pr.1 = d

/-- An old definition appears as the old side of a repathed pair. -/
def repathedOldSide (cs : LibraryMapChanges) (d : LibraryDefinition) : Prop :=
  ∃ pr ∈ cs.repathed_libs, pr.1 = d

/-- A new definition appears as the new side of a renamed pair. -/
def renamedNewSide (cs : LibraryMapChanges) (d : LibraryDefinition) : Prop :=
  ∃ pr ∈ cs.renamed_libs, pr.2 = d

/-- A new definition appears as the new side of a repathed pair. -/
def repathedNewSide (cs : LibraryMapChanges) (d : LibraryDefinition) : Prop :=
  ∃ pr ∈ cs.repathed_libs, pr.2 = d

/-! ### Concrete instances used by witnesses and counterexamples -/

/-- A trivial environment. -/
def envW : PathEnv := { home := ["home"], cwd := ⟨true, ["cw"]⟩ }

/-- A filesystem on which nothing exists. -/
def fsNone : FileSystem :=
  { env := envW, pathExists := fun _ => false, isFile := fun _ => false,
    readable := fun _ => false, config := fun _ => none }

/-- A base folder for the concrete examples. -/
def bBase : Path := ⟨true, ["base"]⟩

/-- Configuration with a single include whose (absolute) target is missing. -/
def cfgMissingInclude : LibraryMapConfig :=
  ⟨"", [.includeStmt ⟨⟨true, ["missing.klib"]⟩⟩]⟩

/-- A filesystem on which the raw relative include path `inc.klib` is a file
with respect to the working directory, but nothing else exists, so the
resolved include target `/base/inc.klib` fails validation. -/
def fsRawHit : FileSystem :=
  { env := envW, pathExists := fun _ => false,
    isFile := fun p => p = ⟨true, ["cw", "inc.klib"]⟩,
    readable := fun _ => false, config := fun _ => none }

/-- The relative include used with `fsRawHit`. -/
def incRel : LibraryMapInclude := ⟨⟨false, ["inc.klib"]⟩⟩

/-- The include target of the order-preservation example. -/
def xPath : Path := ⟨true, ["inc", "x.klib"]⟩

/-- The configuration stored at `xPath`: a single definition `C` with a
relative path, so that its resolution base is observable. -/
def cfgX : LibraryMapConfig := ⟨"", [.definition ⟨"C", ⟨false, ["c.gds"]⟩⟩]⟩

/-- Filesystem for the order-preservation example: only `xPath` exists, is
a readable regular file, and parses to `cfgX`. -/
def fsC4 : FileSystem :=
  { env := envW, pathExists := fun p => p = xPath, isFile := fun p => p = xPath,
    readable := fun p => p = xPath,
    config := fun p => if p = xPath then some cfgX else none }

/-- `[LibraryDefinition(A), Include(X), LibraryDefinition(B)]`. -/
def cfgAXB : LibraryMapConfig :=
  ⟨"tech", [.definition ⟨"A", ⟨false, ["a.gds"]⟩⟩, .includeStmt ⟨xPath⟩,
    .definition ⟨"B", ⟨false, ["b.gds"]⟩⟩]⟩

/-- Filesystem for the relative-include example: the include target exists
at its resolved location `/base/x.klib`, is a readable regular file and
parses to `cfgX`, but no file named `x.klib` exists under the process
working directory `/cw`. -/
def fsRelInc : FileSystem :=
  { env := envW,
    pathExists := fun p => p = ⟨true, ["base", "x.klib"]⟩,
    isFile := fun p => p = ⟨true, ["base", "x.klib"]⟩,
    readable := fun p => p = ⟨true, ["base", "x.klib"]⟩,
    config := fun p => if p = ⟨true, ["base", "x.klib"]⟩ then some cfgX else none }

/-- `[LibraryDefinition(A), Include(x.klib), LibraryDefinition(B)]` with a
relative include path. -/
def cfgAXBrel : LibraryMapConfig :=
  ⟨"tech", [.definition ⟨"A", ⟨false, ["a.gds"]⟩⟩,
    .includeStmt ⟨⟨false, ["x.klib"]⟩⟩,
    .definition ⟨"B", ⟨false, ["b.gds"]⟩⟩]⟩

/-- The self-referential include file of the divergence example. -/
def cycPath : Path := ⟨true, ["a", "x.klib"]⟩

/-- A configuration consisting of one include of `cycPath` — the content of
the file at `cycPath` itself. -/
def cfgCyc : LibraryMapConfig := ⟨"", [.includeStmt ⟨cycPath⟩]⟩

/-- Filesystem on which `cycPath` is a valid configuration file that
includes itself. -/
def fsCyc : FileSystem :=
  { env := envW, pathExists := fun p => p = cycPath,
    isFile := fun p => p = cycPath, readable := fun p => p = cycPath,
    config := fun p => if p = cycPath then some cfgCyc else none }

/-- An include-free configuration, for the termination witness. -/
def cfgNoInc : LibraryMapConfig :=
  ⟨"", [.comment ⟨"just a comment"⟩, .definition ⟨"D", ⟨false, ["d.gds"]⟩⟩]⟩

/-- Concrete resolved paths for the reconciliation examples. -/
def path1 : Path := ⟨true, ["p1"]⟩

def path2 : Path := ⟨true, ["p2"]⟩

/-- Old side of the partition counterexample: two definitions share the
resolved path `path1`, so the path-keyed dict drops `(A, path1)`. -/
def exOld3 : List LibraryDefinition := [⟨"A", path1⟩, ⟨"B", path1⟩, ⟨"B", path2⟩]

/-- New side of the partition counterexample. -/
def exNew3 : List LibraryDefinition := [⟨"B", path1⟩]

/-- Old side of the ambiguous-change counterexample: `(A, path1)` differs
from every new definition in both fields, but a later old definition shares
its path. -/
def exOld6 : List LibraryDefinition := [⟨"A", path1⟩, ⟨"B", path1⟩]

/-- New side of the ambiguous-change counterexample. -/
def exNew6 : List LibraryDefinition := [⟨"C", path2⟩]

/-- A well-formed configuration exercising all three statement kinds, for
the round-trip witness. -/
def cfgRT : LibraryMapConfig :=
  ⟨"sg13g2", [.comment ⟨"Cell library map file example"⟩,
    .definition ⟨"my_stdcells", ⟨false, ["my_stdcells.gds.gz"]⟩⟩,
    .includeStmt ⟨⟨true, ["maps", "default_lib.klib"]⟩⟩]⟩

/-- A nonempty issue accumulator, for the frame-property witness. -/
def issuesPre : LibraryMapIssues :=
  { failed_libraries := [(⟨"old", ⟨true, ["old.gds"]⟩⟩, "File does not exist")],
    failed_includes := [(⟨⟨true, ["old.klib"]⟩⟩, "File does not exist")] }

/-! ## Theorems -/

/-- C1: the claim says `compare(base_folder, old_config, new_config)`
returns a ChangeSet together with the Issues produced while resolving
`new_config`.  The code cannot do this on any input: line 54 calls
`effective_library_definitions` without its required `issues` argument, so
every invocation raises a TypeError before any work happens, and the
`LibraryMapChanges` dataclass has no `issues` field — even though the
caller `apply_library_map_changes` reads `changes.issues`.  The claim
matches the evident intent, so the code is the bug. -/
theorem compare_raises_type_error (base_folder : Path)
    (old_config new_config : LibraryMapConfig) :
    LibraryMapChanges.compare base_folder old_config new_config =
      .error .typeErrorMissingIssuesArgument := rfl

/-- C2 counterexample: an include pointing at the non-existent absolute
file `/missing.klib` fails the raw `include_path.is_file()` pre-check of
line 186 and is skipped silently: resolution completes with an empty
contribution but appends zero entries to `issues.failed_includes`, not the
exactly one entry the claim demands. -/
theorem missing_include_counterexample :
    LibraryMapConfig.effective_library_definitions fsNone 5 cfgMissingInclude bBase
      { failed_libraries := [], failed_includes := [] } =
      .ok ([], { failed_libraries := [], failed_includes := [] }) ∧
    ([] : List (LibraryMapInclude × String)).length ≠ 1 :=
  ⟨rfl, by decide⟩

/-- C3 counterexample: for `old = [(A,p1), (B,p1), (B,p2)]` and
`new = [(B,p1)]` the comparison yields only `repathed = [((B,p2),(B,p1))]`.
The old definition `(A,p1)` — shadowed in the path-keyed dict by `(B,p1)` —
falls in none of {unchanged, renamed, repathed, removed}, and the new
definition `(B,p1)` falls in two classes at once: it is unchanged (it
occurs verbatim in the old list) and it is also the new side of a repathed
pair.  So the claimed partition fails in both directions. -/
theorem compare_partition_counterexample :
    (⟨"A", path1⟩ : LibraryDefinition) ∈ exOld3 ∧
    ¬ ExactlyOne ((⟨"A", path1⟩ : LibraryDefinition) ∈ exNew3)
      (renamedOldSide (LibraryMapChanges.compareResolved exOld3 exNew3) ⟨"A", path1⟩)
      (repathedOldSide (LibraryMapChanges.compareResolved exOld3 exNew3) ⟨"A", path1⟩)
      ((⟨"A", path1⟩ : LibraryDefinition) ∈
        (LibraryMapChanges.compareResolved exOld3 exNew3).removed_libs) ∧
    (⟨"B", path1⟩ : LibraryDefinition) ∈ exNew3 ∧
    (⟨"B", path1⟩ : LibraryDefinition) ∈ exOld3 ∧
    repathedNewSide (LibraryMapChanges.compareResolved exOld3 exNew3) ⟨"B", path1⟩ := by
  refine ⟨by decide, ?_, by decide, by decide, ?_⟩
  · unfold ExactlyOne renamedOldSide repathedOldSide
    decide
  · unfold repathedNewSide
    decide

/-- C6 counterexample: for `old = [(A,p1), (B,p1)]` and `new = [(C,p2)]`
the old definition `(A,p1)` differs from every new definition in both name
and path, yet it is not classified as removed (nor anything else): the
path-keyed dict of line 57 keeps only the later `(B,p1)` for key `p1`, so
`removed = [(B,p1)]` and `(A,p1)` vanishes from the classification. -/
theorem ambiguous_change_counterexample :
    (⟨"A", path1⟩ : LibraryDefinition) ∈ exOld6 ∧
    (∀ nd ∈ exNew6, nd.lib_path ≠ path1 ∧ nd.lib_name ≠ "A") ∧
    (⟨"A", path1⟩ : LibraryDefinition) ∉
      (LibraryMapChanges.compareResolved exOld6 exNew6).removed_libs := by
  refine ⟨by decide, by decide, by decide⟩

/-- C9: `resolve_path` joins a relative path under the base folder and
canonicalizes it — concretely, relative `foo.lib` under base `/x/y`
resolves to `/x/y/foo.lib` — and returns an absolute input unchanged apart
from canonicalization, independent of the base folder.  The function is
total and consults no filesystem state (its type takes no `FileSystem`), so
a missing target can never make it raise. -/
theorem resolve_path_spec :
    (∀ env : PathEnv,
      LibraryMapConfig.resolve_path env ⟨false, ["foo.lib"]⟩ ⟨true, ["x", "y"]⟩ =
        ⟨true, ["x", "y", "foo.lib"]⟩) ∧
    (∀ (env : PathEnv) (p base_folder : Path), p.absolute = true →
      LibraryMapConfig.resolve_path env p base_folder = p.canonical) := by
  constructor
  · intro env
    rfl
  · intro env p base_folder h
    obtain ⟨abs, comps⟩ := p
    simp only at h
    subst h
    have hexp : expand_path env ⟨true, comps⟩ = ⟨true, comps⟩ := by
      unfold expand_path
      split
      · rfl
      · rfl
    unfold LibraryMapConfig.resolve_path
    rw [hexp]
    rfl

/-- Witness for C9: the second part applied to the concrete absolute path
`/x/../y`, whose canonical form is `/y`. -/
theorem resolve_path_spec_witness :
    (⟨true, ["x", "..", "y"]⟩ : Path).absolute = true ∧
    LibraryMapConfig.resolve_path envW ⟨true, ["x", "..", "y"]⟩ bBase =
      Path.canonical ⟨true, ["x", "..", "y"]⟩ :=
  ⟨rfl, resolve_path_spec.2 envW ⟨true, ["x", "..", "y"]⟩ bBase rfl⟩

/-- Resolution on a configuration with a leading statement unfolds to one
`effList` step, uniformly in the fuel. -/
theorem effective_cons (fs : FileSystem) (fuel : Nat) (tech : String)
    (stmts : List LibraryMapStatement) (base_folder : Path)
    (issues : LibraryMapIssues) :
    LibraryMapConfig.effective_library_definitions fs fuel ⟨tech, stmts⟩
      base_folder issues =
    effList fs
      (match fuel with
       | 0 => fun _ _ _ => .error .outOfFuel
       | n + 1 => fun cfg p i =>
          LibraryMapConfig.effective_library_definitions fs n cfg p i)
      stmts base_folder issues := by
  cases fuel <;> rfl

/-- C5: a `LibraryDefinition` statement whose resolved path fails
validation still contributes its resolved `(name, path)` entry at the head
of the output — processing continues on the remaining statements with
exactly one `(original definition, reason)` entry appended to
`issues.failed_libraries`, and the bad entry is mapped onto the front of
whatever the rest produces. -/
theorem bad_library_definition_kept (fs : FileSystem) (fuel : Nat) (tech : String)
    (s : LibraryDefinition) (rest : List LibraryMapStatement) (base_folder : Path)
    (issues : LibraryMapIssues) (reason : String)
    (h : LibraryMapConfig.validate_path fs
      (LibraryMapConfig.resolve_path fs.env s.lib_path base_folder) = some reason) :
    LibraryMapConfig.effective_library_definitions fs fuel
      ⟨tech, .definition s :: rest⟩ base_folder issues =
    (LibraryMapConfig.effective_library_definitions fs fuel ⟨tech, rest⟩ base_folder
      { issues with failed_libraries := issues.failed_libraries ++ [(s, reason)] }).map
      (fun r =>
        (⟨s.lib_name, LibraryMapConfig.resolve_path fs.env s.lib_path base_folder⟩ ::
          r.1, r.2)) := by
  rw [effective_cons, effective_cons]
  show effList _ _ (.definition s :: rest) _ _ = _
  rw [effList]
  simp only [h]
  cases hrest : effList fs _ rest base_folder
      { issues with failed_libraries := issues.failed_libraries ++ [(s, reason)] } with
  | error e => rfl
  | ok r => cases r; rfl

/-- Witness for C5: on `fsNone` the relative definition `D` resolves to
`/base/d.gds`, which does not exist, and the resolved entry is still the
sole output while the issue is recorded. -/
theorem bad_library_definition_kept_witness :
    LibraryMapConfig.validate_path fsNone
      (LibraryMapConfig.resolve_path fsNone.env ⟨false, ["d.gds"]⟩ bBase) =
      some "File does not exist" ∧
    LibraryMapConfig.effective_library_definitions fsNone 1
      ⟨"", [.definition ⟨"D", ⟨false, ["d.gds"]⟩⟩]⟩ bBase
      { failed_libraries := [], failed_includes := [] } =
    (LibraryMapConfig.effective_library_definitions fsNone 1 ⟨"", []⟩ bBase
      { failed_libraries := [(⟨"D", ⟨false, ["d.gds"]⟩⟩, "File does not exist")],
        failed_includes := [] }).map
      (fun r =>
        (⟨"D", LibraryMapConfig.resolve_path fsNone.env ⟨false, ["d.gds"]⟩ bBase⟩ ::
          r.1, r.2)) :=
  ⟨rfl, bad_library_definition_kept fsNone 1 "" ⟨"D", ⟨false, ["d.gds"]⟩⟩ [] bBase
    { failed_libraries := [], failed_includes := [] } "File does not exist" rfl⟩

/-- C2 as amended: an `Include` statement whose raw `include_path` passes
the `is_file()` pre-check of line 186 but whose resolved path fails
validation contributes zero definitions and appends exactly one
`(original include, reason)` entry to `issues.failed_includes`; resolution
continues on the remaining statements and never raises. -/
theorem invalid_include_records_one_issue (fs : FileSystem) (fuel : Nat)
    (tech : String) (inc : LibraryMapInclude) (rest : List LibraryMapStatement)
    (base_folder : Path) (issues : LibraryMapIssues) (reason : String)
    (hraw : pyIsFile fs inc.include_path = true)
    (hval : LibraryMapConfig.validate_path fs
      (LibraryMapConfig.resolve_path fs.env inc.include_path base_folder) =
      some reason) :
    LibraryMapConfig.effective_library_definitions fs fuel
      ⟨tech, .includeStmt inc :: rest⟩ base_folder issues =
    LibraryMapConfig.effective_library_definitions fs fuel ⟨tech, rest⟩ base_folder
      { issues with failed_includes := issues.failed_includes ++ [(inc, reason)] } := by
  rw [effective_cons, effective_cons]
  show effList _ _ (.includeStmt inc :: rest) _ _ = _
  rw [effList]
  simp only [hraw, hval, Bool.not_true]
  rfl

/-- Witness for C2: the relative include `inc.klib` is a file with respect
to the working directory, but its resolution `/base/inc.klib` does not
exist; resolution completes, the include contributes nothing, and its
failure is the one recorded include issue. -/
theorem invalid_include_records_one_issue_witness :
    pyIsFile fsRawHit incRel.include_path = true ∧
    LibraryMapConfig.validate_path fsRawHit
      (LibraryMapConfig.resolve_path fsRawHit.env incRel.include_path bBase) =
      some "File does not exist" ∧
    LibraryMapConfig.effective_library_definitions fsRawHit 3
      ⟨"", [.includeStmt incRel]⟩ bBase
      { failed_libraries := [], failed_includes := [] } =
    LibraryMapConfig.effective_library_definitions fsRawHit 3 ⟨"", []⟩ bBase
      { failed_libraries := [],
        failed_includes := [(incRel, "File does not exist")] } :=
  ⟨rfl, rfl, invalid_include_records_one_issue fsRawHit 3 "" incRel [] bBase
    { failed_libraries := [], failed_includes := [] } "File does not exist" rfl rfl⟩

/-- C4 counterexample: for the configuration
`[LibraryDefinition(A), Include(x.klib), LibraryDefinition(B)]` with a
relative include whose target exists at its resolved location
`/base/x.klib` and parses to the single definition `C`, but which is not a
file relative to the process working directory, the raw
`include_path.is_file()` pre-check of line 186 fails and the include is
skipped: resolution returns `[A, B]`, not the `[A, C, B]` the claim
demands (and records no include issue either). -/
theorem include_flattening_counterexample :
    LibraryMapConfig.validate_path fsRelInc
      (LibraryMapConfig.resolve_path fsRelInc.env ⟨false, ["x.klib"]⟩ bBase) =
      none ∧
    fsRelInc.config
      (LibraryMapConfig.resolve_path fsRelInc.env ⟨false, ["x.klib"]⟩ bBase) =
      some cfgX ∧
    (LibraryMapConfig.effective_library_definitions fsRelInc 3 cfgAXBrel bBase
      { failed_libraries := [], failed_includes := [] }).map Prod.fst =
      .ok [⟨"A", ⟨true, ["base", "a.gds"]⟩⟩, ⟨"B", ⟨true, ["base", "b.gds"]⟩⟩] ∧
    ([⟨"A", ⟨true, ["base", "a.gds"]⟩⟩, ⟨"B", ⟨true, ["base", "b.gds"]⟩⟩] :
        List LibraryDefinition) ≠
      [⟨"A", ⟨true, ["base", "a.gds"]⟩⟩,
        ⟨"C", LibraryMapConfig.resolve_path fsRelInc.env ⟨false, ["c.gds"]⟩
          (LibraryMapConfig.resolve_path fsRelInc.env ⟨false, ["x.klib"]⟩
            bBase).parent⟩,
        ⟨"B", ⟨true, ["base", "b.gds"]⟩⟩] :=
  ⟨rfl, rfl, rfl, by decide⟩

/-- C4 as amended: resolution is depth-first and order-preserving provided
the include also passes the raw `include_path.is_file()` pre-check of line
186 (as an absolute include path does whenever its target exists).  For
the configuration `[LibraryDefinition(A), Include(X), LibraryDefinition(B)]`
whose include passes the pre-check and whose target parses to the single
definition `C`, the output list is exactly `[A, C, B]` (each entry
resolved), and the definition `C` coming from the include is resolved
against the include file's parent directory, not against the outer base
folder.  When the pre-check fails, the include is skipped silently and the
output is `[A, B]`. -/
theorem include_flattening_preserves_order (fs : FileSystem) (n : Nat)
    (tech techX : String) (A B C : LibraryDefinition) (X : LibraryMapInclude)
    (base_folder : Path) (issues : LibraryMapIssues)
    (hraw : pyIsFile fs X.include_path = true)
    (hval : LibraryMapConfig.validate_path fs
      (LibraryMapConfig.resolve_path fs.env X.include_path base_folder) = none)
    (hcfg : fs.config (LibraryMapConfig.resolve_path fs.env X.include_path base_folder) =
      some ⟨techX, [.definition C]⟩) :
    (LibraryMapConfig.effective_library_definitions fs (n + 1)
      ⟨tech, [.definition A, .includeStmt X, .definition B]⟩
      base_folder issues).map Prod.fst =
    .ok [⟨A.lib_name, LibraryMapConfig.resolve_path fs.env A.lib_path base_folder⟩,
      ⟨C.lib_name, LibraryMapConfig.resolve_path fs.env C.lib_path
        (LibraryMapConfig.resolve_path fs.env X.include_path base_folder).parent⟩,
      ⟨B.lib_name, LibraryMapConfig.resolve_path fs.env B.lib_path base_folder⟩] := by
  show (effList _ _ _ _ _).map Prod.fst = _
  simp only [effList, hraw, Bool.not_true, hval, hcfg, effective_cons, Except.map,
    Bool.false_eq_true, if_false, List.singleton_append]

/-- Witness for C4: the concrete instance `fsC4` with
`config = [A@a.gds, Include(/inc/x.klib), B@b.gds]` and the include file
holding `C@c.gds`; the relative `c.gds` resolves under `/inc`, the
include file's parent, while `a.gds` and `b.gds` resolve under `/base`. -/
theorem include_flattening_preserves_order_witness :
    pyIsFile fsC4 xPath = true ∧
    (LibraryMapConfig.effective_library_definitions fsC4 1 cfgAXB bBase
      { failed_libraries := [], failed_includes := [] }).map Prod.fst =
    .ok [⟨"A", ⟨true, ["base", "a.gds"]⟩⟩, ⟨"C", ⟨true, ["inc", "c.gds"]⟩⟩,
      ⟨"B", ⟨true, ["base", "b.gds"]⟩⟩] :=
  ⟨rfl, include_flattening_preserves_order fsC4 0 "tech" ""
    ⟨"A", ⟨false, ["a.gds"]⟩⟩ ⟨"B", ⟨false, ["b.gds"]⟩⟩ ⟨"C", ⟨false, ["c.gds"]⟩⟩
    ⟨xPath⟩ bBase { failed_libraries := [], failed_includes := [] } rfl rfl rfl⟩

/-- The statement loop never reports fuel exhaustion on its own: it can
only propagate `outOfFuel` out of the recursive call it is handed. -/
theorem effList_no_outOfFuel (fs : FileSystem)
    (R : LibraryMapConfig → Path → LibraryMapIssues →
      Except ResolutionError (List LibraryDefinition × LibraryMapIssues)) :
    ∀ (stmts : List LibraryMapStatement) (base_folder : Path),
    (∀ inc cfg2, LibraryMapStatement.includeStmt inc ∈ stmts →
      pyIsFile fs inc.include_path = true →
      LibraryMapConfig.validate_path fs
        (LibraryMapConfig.resolve_path fs.env inc.include_path base_folder) = none →
      fs.config (LibraryMapConfig.resolve_path fs.env inc.include_path base_folder) =
        some cfg2 →
      ∀ i, R cfg2
        (LibraryMapConfig.resolve_path fs.env inc.include_path base_folder).parent i ≠
        .error .outOfFuel) →
    ∀ issues, effList fs R stmts base_folder issues ≠ .error .outOfFuel := by
  intro stmts
  induction stmts with
  | nil =>
    intro base_folder _ issues h
    simp [effList] at h
  | cons s rest ih =>
    intro base_folder hR issues
    have hR' := fun inc cfg2 hmem => hR inc cfg2 (List.mem_cons_of_mem s hmem)
    cases s with
    | comment c =>
      rw [effList]
      exact ih base_folder hR' issues
    | definition d =>
      rw [effList]
      split
      · next e heq =>
          intro hcontra
          injection hcontra with hcontra
          subst hcontra
          exact ih base_folder hR' _ heq
      · simp
    | includeStmt s =>
      simp only [effList]
      split
      · exact ih base_folder hR' issues
      · next hraw =>
          have hraw' : pyIsFile fs s.include_path = true := by
            simpa using hraw
          split
          · exact ih base_folder hR' _
          · next hval =>
              split
              · simp
              · next cfg2 hcfg =>
                  split
                  · next e heq =>
                      intro hcontra
                      injection hcontra with hcontra
                      subst hcontra
                      exact hR s cfg2 (List.mem_cons_self _ _) hraw' hval hcfg issues heq
                  · next r heq =>
                      split
                      · next e2 heq2 =>
                          intro hcontra
                          injection hcontra with hcontra
                          subst hcontra
                          exact ih base_folder hR' _ heq2
                      · simp

/-- Resolution does not exhaust its fuel when the include nesting depth is
bounded by the fuel. -/
theorem eff_no_outOfFuel_of_depthLE (fs : FileSystem) (cfg : LibraryMapConfig)
    (base_folder : Path) (n : Nat) (h : IncludeDepthLE fs cfg base_folder n) :
    ∀ issues, LibraryMapConfig.effective_library_definitions fs n cfg base_folder
      issues ≠ .error .outOfFuel := by
  induction h with
  | step cfg base n hstep ih =>
    intro issues
    show effList fs _ cfg.statements base issues ≠ _
    exact effList_no_outOfFuel fs _ cfg.statements base
      (fun inc cfg2 hmem hraw hval hcfg i => ih inc cfg2 hmem hraw hval hcfg i) issues

/-- One unfolding step of resolving the self-including configuration. -/
theorem effCyc_succ (n : Nat) (issues : LibraryMapIssues) :
    LibraryMapConfig.effective_library_definitions fsCyc (n + 1) cfgCyc
      cycPath.parent issues =
    match LibraryMapConfig.effective_library_definitions fsCyc n cfgCyc
      cycPath.parent issues with
    | .error e => .error e
    | .ok (l1, i1) => .ok (l1 ++ [], i1) := rfl

/-- Resolving the self-including configuration exhausts every fuel bound. -/
theorem eff_cyc_outOfFuel :
    ∀ (n : Nat) (issues : LibraryMapIssues),
    LibraryMapConfig.effective_library_definitions fsCyc n cfgCyc cycPath.parent
      issues = .error .outOfFuel := by
  intro n
  induction n with
  | zero => intro issues; rfl
  | succ n ih =>
      intro issues
      rw [effCyc_succ, ih issues]

/-- C7: resolution terminates — never reports fuel exhaustion once the fuel
covers the include nesting depth, which is finite for a finite acyclic
reachable include graph — and performs no cycle detection: on the concrete
filesystem `fsCyc`, whose file `/a/x.klib` includes itself, the recursion
consumes every fuel bound, i.e. the Python original recurses forever. -/
theorem resolution_terminates_acyclic_diverges_cyclic :
    (∀ (fs : FileSystem) (cfg : LibraryMapConfig) (base_folder : Path) (n : Nat)
      (issues : LibraryMapIssues), IncludeDepthLE fs cfg base_folder n →
      LibraryMapConfig.effective_library_definitions fs n cfg base_folder issues ≠
        .error .outOfFuel) ∧
    (∀ (n : Nat) (issues : LibraryMapIssues),
      LibraryMapConfig.effective_library_definitions fsCyc n cfgCyc cycPath.parent
        issues = .error .outOfFuel) :=
  ⟨fun fs cfg base_folder n issues h => eff_no_outOfFuel_of_depthLE fs cfg base_folder
    n h issues, eff_cyc_outOfFuel⟩

/-- Witness for C7: the include-free configuration `cfgNoInc` has include
depth bounded by 1 and resolves without fuel exhaustion. -/
theorem resolution_terminates_witness :
    IncludeDepthLE fsNone cfgNoInc bBase 1 ∧
    LibraryMapConfig.effective_library_definitions fsNone 1 cfgNoInc bBase
      { failed_libraries := [], failed_includes := [] } ≠ .error .outOfFuel := by
  have hd : IncludeDepthLE fsNone cfgNoInc bBase 1 := by
    refine .step cfgNoInc bBase 0 ?_
    intro inc cfg2 hmem hraw hval hcfg
    simp [cfgNoInc] at hmem
  exact ⟨hd, resolution_terminates_acyclic_diverges_cyclic.1 fsNone cfgNoInc bBase 1
    { failed_libraries := [], failed_includes := [] } hd⟩

/-- Issue extension is reflexive. -/
theorem issuesExtend_refl (a : LibraryMapIssues) : IssuesExtend a a :=
  ⟨⟨[], by simp⟩, ⟨[], by simp⟩⟩

/-- Issue extension is transitive. -/
theorem issuesExtend_trans {a b c : LibraryMapIssues}
    (h1 : IssuesExtend a b) (h2 : IssuesExtend b c) : IssuesExtend a c := by
  obtain ⟨⟨t1, ht1⟩, ⟨t2, ht2⟩⟩ := h1
  obtain ⟨⟨s1, hs1⟩, ⟨s2, hs2⟩⟩ := h2
  exact ⟨⟨t1 ++ s1, by rw [hs1, ht1, List.append_assoc]⟩,
    ⟨t2 ++ s2, by rw [hs2, ht2, List.append_assoc]⟩⟩

/-- The statement loop only ever appends to the issue accumulator, as long
as the recursive call it is handed does so too. -/
theorem effList_issues_extend (fs : FileSystem)
    (R : LibraryMapConfig → Path → LibraryMapIssues →
      Except ResolutionError (List LibraryDefinition × LibraryMapIssues))
    (hR : ∀ cfg p i l i2, R cfg p i = .ok (l, i2) → IssuesExtend i i2) :
    ∀ (stmts : List LibraryMapStatement) (base_folder : Path)
      (issues : LibraryMapIssues) (libs : List LibraryDefinition)
      (issues2 : LibraryMapIssues),
      effList fs R stmts base_folder issues = .ok (libs, issues2) →
      IssuesExtend issues issues2 := by
  intro stmts
  induction stmts with
  | nil =>
    intro base_folder issues libs issues2 h
    rw [effList] at h
    injection h with h
    rw [show issues2 = issues from (congrArg Prod.snd h).symm]
    exact issuesExtend_refl issues
  | cons s rest ih =>
    intro base_folder issues libs issues2 h
    cases s with
    | comment c =>
      rw [effList] at h
      exact ih base_folder issues libs issues2 h
    | definition d =>
      rw [effList] at h
      split at h
      · exact Except.noConfusion h
      · next l1 i1 heq =>
          simp only [Except.ok.injEq, Prod.mk.injEq] at h
          obtain ⟨-, hsnd⟩ := h
          subst hsnd
          have hmid : IssuesExtend
              (match LibraryMapConfig.validate_path fs
                (LibraryMapConfig.resolve_path fs.env d.lib_path base_folder) with
               | some issue =>
                 { issues with
                    failed_libraries := issues.failed_libraries ++ [(d, issue)] }
               | none => issues)
              i1 := ih base_folder _ l1 i1 heq
          refine issuesExtend_trans ?_ hmid
          cases LibraryMapConfig.validate_path fs
              (LibraryMapConfig.resolve_path fs.env d.lib_path base_folder) with
          | none => exact issuesExtend_refl issues
          | some issue => exact ⟨⟨[(d, issue)], rfl⟩, ⟨[], by simp⟩⟩
    | includeStmt s =>
      simp only [effList] at h
      split at h
      · exact ih base_folder issues libs issues2 h
      · split at h
        · next issue heq =>
            refine issuesExtend_trans ⟨⟨[], by simp⟩, ⟨[(s, issue)], rfl⟩⟩
              (ih base_folder _ libs issues2 h)
        · split at h
          · exact Except.noConfusion h
          · next cfg2 hcfg =>
              split at h
              · exact Except.noConfusion h
              · next l1 i1 heq1 =>
                  split at h
                  · exact Except.noConfusion h
                  · next l2 i2 heq2 =>
                      simp only [Except.ok.injEq, Prod.mk.injEq] at h
                      obtain ⟨-, hsnd⟩ := h
                      subst hsnd
                      exact issuesExtend_trans (hR _ _ _ _ _ heq1)
                        (ih base_folder i1 l2 i2 heq2)

/-- Resolution only ever appends to the issue accumulator, for every fuel
bound. -/
theorem eff_issues_extend :
    ∀ (fuel : Nat) (fs : FileSystem) (cfg : LibraryMapConfig) (base_folder : Path)
      (issues : LibraryMapIssues) (libs : List LibraryDefinition)
      (issues2 : LibraryMapIssues),
      LibraryMapConfig.effective_library_definitions fs fuel cfg base_folder issues =
        .ok (libs, issues2) →
      IssuesExtend issues issues2 := by
  intro fuel
  induction fuel with
  | zero =>
    intro fs cfg base_folder issues libs issues2 h
    exact effList_issues_extend fs _
      (fun _ _ _ _ _ hk => Except.noConfusion hk)
      cfg.statements base_folder issues libs issues2 h
  | succ n ih =>
    intro fs cfg base_folder issues libs issues2 h
    exact effList_issues_extend fs _
      (fun cfg2 p i l i2 hk => ih fs cfg2 p i l i2 hk)
      cfg.statements base_folder issues libs issues2 h

/-- C10: `effective_library_definitions` only extends the caller-supplied
issues accumulator: whenever it returns, each of the two issue lists of the
output accumulator is the corresponding input list with new entries
appended at the end only, so every entry present before the call is still
present, at its original position, afterwards.  (The configuration itself
is never written to — the Python method only reads `self.statements`, which
the embedding reflects by consuming the configuration as an immutable
value.) -/
theorem effective_only_appends_issues (fs : FileSystem) (fuel : Nat)
    (cfg : LibraryMapConfig) (base_folder : Path) (issues : LibraryMapIssues)
    (libs : List LibraryDefinition) (issues2 : LibraryMapIssues)
    (h : LibraryMapConfig.effective_library_definitions fs fuel cfg base_folder
      issues = .ok (libs, issues2)) :
    (∃ t1, issues2.failed_libraries = issues.failed_libraries ++ t1) ∧
    (∃ t2, issues2.failed_includes = issues.failed_includes ++ t2) :=
  eff_issues_extend fuel fs cfg base_folder issues libs issues2 h

/-- Witness for C10: resolving a configuration with one unresolvable
definition starting from the nonempty accumulator `issuesPre` preserves the
preexisting entries in place and appends the new one. -/
theorem effective_only_appends_issues_witness :
    LibraryMapConfig.effective_library_definitions fsNone 1
      ⟨"", [.definition ⟨"D", ⟨false, ["d.gds"]⟩⟩]⟩ bBase issuesPre =
      .ok ([⟨"D", ⟨true, ["base", "d.gds"]⟩⟩],
        { failed_libraries := issuesPre.failed_libraries ++
            [(⟨"D", ⟨false, ["d.gds"]⟩⟩, "File does not exist")],
          failed_includes := issuesPre.failed_includes }) ∧
    (∃ t1, (issuesPre.failed_libraries ++
        [(⟨"D", ⟨false, ["d.gds"]⟩⟩, "File does not exist")]) =
      issuesPre.failed_libraries ++ t1) ∧
    (∃ t2, issuesPre.failed_includes = issuesPre.failed_includes ++ t2) :=
  ⟨rfl, effective_only_appends_issues fsNone 1
    ⟨"", [.definition ⟨"D", ⟨false, ["d.gds"]⟩⟩]⟩ bBase issuesPre
    [⟨"D", ⟨true, ["base", "d.gds"]⟩⟩]
    { failed_libraries := issuesPre.failed_libraries ++
        [(⟨"D", ⟨false, ["d.gds"]⟩⟩, "File does not exist")],
      failed_includes := issuesPre.failed_includes } rfl⟩

/-- Splitting a separator-free piece yields that piece alone. -/
theorem splitOnChar_no_sep (sep : Char) :
    ∀ p : List Char, sep ∉ p → splitOnChar sep p = [p] := by
  intro p
  induction p with
  | nil => intro _; rfl
  | cons c cs ih =>
    intro hp
    rw [List.mem_cons, not_or] at hp
    obtain ⟨hne, hcs⟩ := hp
    simp only [splitOnChar, ih hcs]
    rw [if_neg (fun h => hne h.symm)]

/-- Splitting after a separator-free first piece peels that piece off. -/
theorem splitOnChar_sep_append (sep : Char) :
    ∀ (p l : List Char), sep ∉ p →
    splitOnChar sep (p ++ sep :: l) = p :: splitOnChar sep l := by
  intro p
  induction p with
  | nil =>
    intro l _
    simp [splitOnChar]
  | cons c cs ih =>
    intro l hp
    rw [List.mem_cons, not_or] at hp
    obtain ⟨hne, hcs⟩ := hp
    simp only [List.cons_append, splitOnChar, List.append_eq, ih l hcs]
    rw [if_neg (fun h => hne h.symm)]

/-- A joined nonempty piece list starts with its first piece. -/
theorem joinChar_cons_ex (sep : Char) (p : List Char) (rest : List (List Char)) :
    ∃ t, joinChar sep (p :: rest) = p ++ t := by
  cases rest with
  | nil => exact ⟨[], by simp [joinChar]⟩
  | cons q ps => exact ⟨sep :: joinChar sep (q :: ps), rfl⟩

/-- Splitting inverts joining for nonempty lists of separator-free pieces. -/
theorem splitOnChar_joinChar (sep : Char) :
    ∀ pieces : List (List Char), pieces ≠ [] → (∀ p ∈ pieces, sep ∉ p) →
    splitOnChar sep (joinChar sep pieces) = pieces := by
  intro pieces
  induction pieces with
  | nil => intro h _; exact absurd rfl h
  | cons p rest ih =>
    intro _ hmem
    cases rest with
    | nil => exact splitOnChar_no_sep sep p (hmem p (List.mem_cons_self _ _))
    | cons q ps =>
      rw [show joinChar sep (p :: q :: ps) = p ++ sep :: joinChar sep (q :: ps)
        from rfl]
      rw [splitOnChar_sep_append sep p _ (hmem p (List.mem_cons_self _ _))]
      rw [ih (by simp) (fun x hx => hmem x (List.mem_cons_of_mem p hx))]

/-- Rebuilding strings from their character data is the identity. -/
theorem map_mk_map_data :
    ∀ l : List String, (l.map String.data).map String.mk = l := by
  intro l
  induction l with
  | nil => rfl
  | cons s rest ih =>
    show String.mk s.data :: (rest.map String.data).map String.mk = s :: rest
    rw [ih]

/-- Rendering and re-parsing a well-formed path is the identity. -/
theorem Path.parse_render (p : Path) (h : p.WF) : Path.parse p.render = p := by
  obtain ⟨abs, comps⟩ := p
  cases comps with
  | nil => cases abs <;> rfl
  | cons c cs =>
    have hmem : ∀ q ∈ (c :: cs).map String.data, '/' ∉ q := by
      intro q hq
      rw [List.mem_map] at hq
      obtain ⟨s, hs, rfl⟩ := hq
      exact (h s hs).2
    have hne : c.data ≠ [] := (h c (List.mem_cons_self _ _)).1
    obtain ⟨t, ht⟩ := joinChar_cons_ex '/' c.data (cs.map String.data)
    have hXne : joinChar '/' ((c :: cs).map String.data) ≠ [] := by
      rw [List.map_cons, ht]
      intro hcontra
      exact hne (List.append_eq_nil.mp hcontra).1
    have hsplit : (splitOnChar '/' (joinChar '/' ((c :: cs).map String.data))).map
        String.mk = c :: cs := by
      rw [splitOnChar_joinChar '/' _ (by simp) hmem, map_mk_map_data]
    have hhead : ∀ d ∈ c.data, d ≠ '/' := by
      intro d hd he
      exact (h c (List.mem_cons_self _ _)).2 (he ▸ hd)
    cases abs with
    | true =>
      show parseChars ('/' :: joinChar '/' ((c :: cs).map String.data)) = _
      rw [parseChars, if_pos rfl, if_neg hXne, hsplit]
    | false =>
      show parseChars (joinChar '/' ((c :: cs).map String.data)) = _
      rw [List.map_cons] at hsplit ⊢
      rw [ht]
      cases hc : c.data with
      | nil => exact absurd hc hne
      | cons d ds =>
        rw [List.cons_append, parseChars,
          if_neg (hhead d (by rw [hc]; exact List.mem_cons_self _ _)),
          ← List.cons_append, ← hc, ← ht, hsplit]

/-- A well-formed statement survives the serialize-parse round trip. -/
theorem parseStatement_serializeStatement (s : LibraryMapStatement)
    (h : s.WF) : parseStatement (serializeStatement s) = some s := by
  cases s with
  | comment c => rfl
  | definition d =>
    show (some (LibraryMapStatement.definition
        ⟨d.lib_name, Path.parse d.lib_path.render⟩) :
      Option LibraryMapStatement) = some (LibraryMapStatement.definition d)
    rw [Path.parse_render d.lib_path h]
  | includeStmt i =>
    show (some (LibraryMapStatement.includeStmt
        ⟨Path.parse i.include_path.render⟩) :
      Option LibraryMapStatement) = some (LibraryMapStatement.includeStmt i)
    rw [Path.parse_render i.include_path h]

/-- Mapping serialization and then traversing parsing over a list of
well-formed statements is the identity. -/
theorem mapM_parse_serialize :
    ∀ stmts : List LibraryMapStatement, (∀ s ∈ stmts, s.WF) →
    (stmts.map serializeStatement).mapM parseStatement = some stmts := by
  intro stmts
  induction stmts with
  | nil => intro _; rfl
  | cons s rest ih =>
    intro h
    rw [List.map_cons, List.mapM_cons,
      parseStatement_serializeStatement s (h s (List.mem_cons_self _ _)),
      ih (fun x hx => h x (List.mem_cons_of_mem s hx))]
    rfl

/-- C8: serialization round-trips.  For every well-formed configuration
(each carried path has nonempty, separator-free components, the invariant
`pathlib` maintains), parsing the serialized form yields the configuration
back statement for statement, including comment text, statement order and
the declared technology string. -/
theorem from_json_string_json_string (c : LibraryMapConfig) (h : c.WF) :
    LibraryMapConfig.from_json_string (LibraryMapConfig.json_string c) = some c := by
  show (match (c.statements.map serializeStatement).mapM parseStatement with
    | some stmts => some ⟨c.technology, stmts⟩
    | none => none) = some c
  rw [mapM_parse_serialize c.statements h]

/-- Witness for C8: the three-statement configuration `cfgRT` is well
formed and round-trips. -/
theorem from_json_string_json_string_witness :
    cfgRT.WF ∧
    LibraryMapConfig.from_json_string (LibraryMapConfig.json_string cfgRT) =
      some cfgRT := by
  have hwf : cfgRT.WF := by
    intro s hs
    simp only [cfgRT, List.mem_cons, List.not_mem_nil, or_false] at hs
    rcases hs with rfl | rfl | rfl
    · trivial
    · intro x hx
      simp only [List.mem_cons, List.not_mem_nil, or_false] at hx
      subst hx
      exact ⟨by decide, by decide⟩
    · intro x hx
      simp only [List.mem_cons, List.not_mem_nil, or_false] at hx
      rcases hx with rfl | rfl
      · exact ⟨by decide, by decide⟩
      · exact ⟨by decide, by decide⟩
  exact ⟨hwf, from_json_string_json_string cfgRT hwf⟩

/-- Membership after a dict insertion comes from the old dict or is the
inserted pair. -/
theorem pyDictInsert_mem {K V : Type} [DecidableEq K] {d : List (K × V)}
    {k : K} {v : V} {kv : K × V} (h : kv ∈ pyDictInsert d k v) :
    kv ∈ d ∨ kv = (k, v) := by
  unfold pyDictInsert at h
  split at h
  · rw [List.mem_map] at h
    obtain ⟨kv0, hkv0, heq⟩ := h
    by_cases hk : kv0.1 = k
    · rw [if_pos hk] at heq
      exact Or.inr heq.symm
    · rw [if_neg hk] at heq
      exact Or.inl (heq ▸ hkv0)
  · rw [List.mem_append, List.mem_singleton] at h
    exact h

/-- The inserted pair is present after a dict insertion. -/
theorem pyDictInsert_self_mem {K V : Type} [DecidableEq K] (d : List (K × V))
    (k : K) (v : V) : (k, v) ∈ pyDictInsert d k v := by
  unfold pyDictInsert
  split
  · next hany =>
      rw [List.any_eq_true] at hany
      obtain ⟨kv0, hkv0, hk⟩ := hany
      rw [decide_eq_true_eq] at hk
      rw [List.mem_map]
      exact ⟨kv0, hkv0, by rw [if_pos hk]⟩
  · rw [List.mem_append, List.mem_singleton]
    exact Or.inr rfl

/-- A pair whose key differs from the inserted one survives insertion. -/
theorem pyDictInsert_preserve {K V : Type} [DecidableEq K] {d : List (K × V)}
    {k : K} {v : V} {kv : K × V} (h : kv ∈ d) (hk : kv.1 ≠ k) :
    kv ∈ pyDictInsert d k v := by
  unfold pyDictInsert
  split
  · rw [List.mem_map]
    exact ⟨kv, h, by rw [if_neg hk]⟩
  · rw [List.mem_append]
    exact Or.inl h

/-- Every pair of a built dict satisfies any property that all generated
pairs satisfy. -/
theorem pyDictOf_mem_invariant {A K V : Type} [DecidableEq K] (f : A → K × V)
    (P : K × V → Prop) :
    ∀ (xs : List A), (∀ a ∈ xs, P (f a)) → ∀ kv ∈ pyDictOf f xs, P kv := by
  have main : ∀ (xs : List A) (d : List (K × V)), (∀ kv ∈ d, P kv) →
      (∀ a ∈ xs, P (f a)) →
      ∀ kv ∈ xs.foldl (fun d a => pyDictInsert d (f a).1 (f a).2) d, P kv := by
    intro xs
    induction xs with
    | nil => intro d hd _ kv hkv; exact hd kv hkv
    | cons a rest ih =>
      intro d hd hxs kv hkv
      refine ih (pyDictInsert d (f a).1 (f a).2) ?_
        (fun b hb => hxs b (List.mem_cons_of_mem a hb)) kv hkv
      intro kv2 hkv2
      rcases pyDictInsert_mem hkv2 with hin | heq
      · exact hd kv2 hin
      · rw [heq]
        exact hxs a (List.mem_cons_self _ _)
  intro xs hxs kv hkv
  exact main xs [] (by intro kv2 hkv2; exact absurd hkv2 (List.not_mem_nil kv2))
    hxs kv hkv

/-- A successful dict lookup returns a pair of the dict keyed as asked. -/
theorem pyDictGet_some_mem {K V : Type} [DecidableEq K] {d : List (K × V)}
    {k : K} {v : V} (h : pyDictGet d k = some v) : (k, v) ∈ d := by
  unfold pyDictGet at h
  cases hf : d.find? (fun kv => kv.1 = k) with
  | none => rw [hf] at h; exact Option.noConfusion h
  | some kv =>
      rw [hf] at h
      have hm := List.mem_of_find?_eq_some hf
      have hp := List.find?_some hf
      rw [decide_eq_true_eq] at hp
      injection h with h
      have : kv = (k, v) := by
        obtain ⟨k0, v0⟩ := kv
        simp only at hp h
        rw [hp, h]
      exact this ▸ hm

/-- A dict lookup fails exactly when no pair carries the key. -/
theorem pyDictGet_none_iff {K V : Type} [DecidableEq K] (d : List (K × V))
    (k : K) : pyDictGet d k = none ↔ ∀ kv ∈ d, kv.1 ≠ k := by
  unfold pyDictGet
  rw [Option.map_eq_none', List.find?_eq_none]
  constructor
  · intro h kv hkv
    have := h kv hkv
    rw [decide_eq_true_eq] at this
    exact this
  · intro h kv hkv
    rw [decide_eq_true_eq]
    exact h kv hkv

/-- In a dict with duplicate-free keys, every member pair is looked up
successfully. -/
theorem pyDictGet_of_mem_nodupkeys {K V : Type} [DecidableEq K] :
    ∀ (d : List (K × V)) (k : K) (v : V), (k, v) ∈ d →
    (d.map Prod.fst).Nodup → pyDictGet d k = some v := by
  intro d
  induction d with
  | nil => intro k v h; exact absurd h (List.not_mem_nil _)
  | cons kv0 rest ih =>
    intro k v h hnd
    rw [List.map_cons, List.nodup_cons] at hnd
    obtain ⟨hk0, hrest⟩ := hnd
    rw [List.mem_cons] at h
    rcases h with heq | hin
    · unfold pyDictGet
      rw [List.find?_cons_of_pos _ (by rw [← heq]; exact decide_eq_true rfl)]
      rw [← heq]
      rfl
    · have hne : kv0.1 ≠ k := by
        intro hcontra
        refine hk0 ?_
        rw [List.mem_map]
        exact ⟨(k, v), hin, hcontra.symm⟩
      unfold pyDictGet at ih ⊢
      rw [List.find?_cons_of_neg _ (by simp [hne])]
      exact ih k v hin hrest

/-- Building a dict from entries with duplicate-free keys performs no
overwriting: the dict is the entry list itself. -/
theorem pyDictOf_nodup {A K V : Type} [DecidableEq K] (f : A → K × V) :
    ∀ xs : List A, (xs.map (fun a => (f a).1)).Nodup →
    pyDictOf f xs = xs.map f := by
  have main : ∀ (xs : List A) (d : List (K × V)),
      (∀ a ∈ xs, ∀ kv ∈ d, kv.1 ≠ (f a).1) →
      (xs.map (fun a => (f a).1)).Nodup →
      xs.foldl (fun d a => pyDictInsert d (f a).1 (f a).2) d = d ++ xs.map f := by
    intro xs
    induction xs with
    | nil => intro d _ _; simp
    | cons a rest ih =>
      intro d hd hnd
      rw [List.map_cons, List.nodup_cons] at hnd
      obtain ⟨ha, hrest⟩ := hnd
      have hins : pyDictInsert d (f a).1 (f a).2 = d ++ [f a] := by
        have hnc : ¬(d.any fun kv => kv.1 = (f a).1) = true := by
          rw [List.any_eq_true]
          rintro ⟨kv, hkv, hk⟩
          rw [decide_eq_true_eq] at hk
          exact hd a (List.mem_cons_self _ _) kv hkv hk
        unfold pyDictInsert
        rw [if_neg hnc]
      rw [List.foldl_cons, hins, ih (d ++ [f a]) ?_ hrest]
      · rw [List.map_cons, List.append_assoc, List.singleton_append]
      · intro b hb kv hkv
        rw [List.mem_append, List.mem_singleton] at hkv
        rcases hkv with hin | heq
        · exact hd b (List.mem_cons_of_mem a hb) kv hin
        · rw [heq]
          intro hcontra
          refine ha ?_
          rw [List.mem_map]
          exact ⟨b, hb, hcontra.symm⟩
  intro xs h
  have := main xs [] (by intro a _ kv hkv; exact absurd hkv (List.not_mem_nil kv)) h
  rw [List.nil_append] at this
  exact this

/-- Membership in a Python set after an `add`. -/
theorem pySetAdd_mem {A : Type} [DecidableEq A] (s : List A) (a x : A) :
    x ∈ pySetAdd s a ↔ x ∈ s ∨ x = a := by
  unfold pySetAdd
  split
  · next hmem =>
      constructor
      · exact Or.inl
      · rintro (h | rfl)
        · exact h
        · exact hmem
  · rw [List.mem_append, List.mem_singleton]

/-- Folding a step function that appends to a projected list appends the
per-item contributions in order. -/
theorem foldl_proj_append {σ I α : Type} (f : σ → I → σ) (proj : σ → List α)
    (g : I → List α) (hstep : ∀ st it, proj (f st it) = proj st ++ g it) :
    ∀ (items : List I) (st : σ),
    proj (items.foldl f st) = proj st ++ (items.map g).flatten := by
  intro items
  induction items with
  | nil => intro st; simp
  | cons it rest ih =>
    intro st
    rw [List.foldl_cons, ih, hstep, List.map_cons, List.flatten_cons,
      List.append_assoc]

/-- One step of the first comparison loop leaves `added` unchanged. -/
theorem phase1Step_added (nbp : List (Path × LibraryDefinition))
    (nbn : List (String × LibraryDefinition)) (st : CompareState)
    (it : Path × LibraryDefinition) :
    (phase1Step nbp nbn st it).added = st.added := by
  simp only [phase1Step]
  cases pyDictGet nbp it.1 with
  | none => cases pyDictGet nbn it.2.lib_name <;> rfl
  | some nd => by_cases h : it.2 ≠ nd <;> simp [h]

/-- One step of the first comparison loop appends to `renamed` exactly on a
path match with a differing definition. -/
theorem phase1Step_renamed (nbp : List (Path × LibraryDefinition))
    (nbn : List (String × LibraryDefinition)) (st : CompareState)
    (it : Path × LibraryDefinition) :
    (phase1Step nbp nbn st it).renamed = st.renamed ++
      (match pyDictGet nbp it.1 with
       | some nd => if it.2 ≠ nd then [(it.2, nd)] else []
       | none => []) := by
  simp only [phase1Step]
  cases pyDictGet nbp it.1 with
  | none => cases pyDictGet nbn it.2.lib_name <;> simp
  | some nd => by_cases h : it.2 ≠ nd <;> simp [h]

/-- One step of the first comparison loop appends to `repathed` exactly on
a failed path match with a name match. -/
theorem phase1Step_repathed (nbp : List (Path × LibraryDefinition))
    (nbn : List (String × LibraryDefinition)) (st : CompareState)
    (it : Path × LibraryDefinition) :
    (phase1Step nbp nbn st it).repathed = st.repathed ++
      (match pyDictGet nbp it.1 with
       | some _ => []
       | none =>
         match pyDictGet nbn it.2.lib_name with
         | some nd => [(it.2, nd)]
         | none => []) := by
  simp only [phase1Step]
  cases pyDictGet nbp it.1 with
  | none => cases pyDictGet nbn it.2.lib_name <;> simp
  | some nd => by_cases h : it.2 ≠ nd <;> simp [h]

/-- One step of the first comparison loop appends to `removed` exactly when
both lookups fail. -/
theorem phase1Step_removed (nbp : List (Path × LibraryDefinition))
    (nbn : List (String × LibraryDefinition)) (st : CompareState)
    (it : Path × LibraryDefinition) :
    (phase1Step nbp nbn st it).removed = st.removed ++
      (match pyDictGet nbp it.1 with
       | some _ => []
       | none =>
         match pyDictGet nbn it.2.lib_name with
         | some _ => []
         | none => [it.2]) := by
  simp only [phase1Step]
  cases pyDictGet nbp it.1 with
  | none => cases pyDictGet nbn it.2.lib_name <;> simp
  | some nd => by_cases h : it.2 ≠ nd <;> simp [h]

/-- The first comparison loop never touches the `added` list. -/
theorem phase1_added_eq (nbp : List (Path × LibraryDefinition))
    (nbn : List (String × LibraryDefinition)) :
    ∀ (items : List (Path × LibraryDefinition)) (st : CompareState),
    (items.foldl (phase1Step nbp nbn) st).added = st.added := by
  intro items
  induction items with
  | nil => intro st; rfl
  | cons it rest ih =>
    intro st
    rw [List.foldl_cons, ih, phase1Step_added]

/-- Membership in the `renamed` list produced by the first loop. -/
theorem phase1_renamed_mem (nbp : List (Path × LibraryDefinition))
    (nbn : List (String × LibraryDefinition))
    (items : List (Path × LibraryDefinition)) (st : CompareState)
    (pr : LibraryDefinition × LibraryDefinition) :
    pr ∈ (items.foldl (phase1Step nbp nbn) st).renamed ↔
      pr ∈ st.renamed ∨ ∃ it ∈ items, pr ∈
        (match pyDictGet nbp it.1 with
         | some nd => if it.2 ≠ nd then [(it.2, nd)] else []
         | none => ([] : List (LibraryDefinition × LibraryDefinition))) := by
  rw [foldl_proj_append (phase1Step nbp nbn) (fun st => st.renamed) _
    (phase1Step_renamed nbp nbn) items st]
  simp only [List.mem_append, List.mem_flatten, List.mem_map]
  constructor
  · rintro (h | ⟨l, ⟨it, hit, rfl⟩, hpr⟩)
    · exact Or.inl h
    · exact Or.inr ⟨it, hit, hpr⟩
  · rintro (h | ⟨it, hit, hpr⟩)
    · exact Or.inl h
    · exact Or.inr ⟨_, ⟨it, hit, rfl⟩, hpr⟩

/-- Membership in the `repathed` list produced by the first loop. -/
theorem phase1_repathed_mem (nbp : List (Path × LibraryDefinition))
    (nbn : List (String × LibraryDefinition))
    (items : List (Path × LibraryDefinition)) (st : CompareState)
    (pr : LibraryDefinition × LibraryDefinition) :
    pr ∈ (items.foldl (phase1Step nbp nbn) st).repathed ↔
      pr ∈ st.repathed ∨ ∃ it ∈ items, pr ∈
        (match pyDictGet nbp it.1 with
         | some _ => ([] : List (LibraryDefinition × LibraryDefinition))
         | none =>
           match pyDictGet nbn it.2.lib_name with
           | some nd => [(it.2, nd)]
           | none => []) := by
  rw [foldl_proj_append (phase1Step nbp nbn) (fun st => st.repathed) _
    (phase1Step_repathed nbp nbn) items st]
  simp only [List.mem_append, List.mem_flatten, List.mem_map]
  constructor
  · rintro (h | ⟨l, ⟨it, hit, rfl⟩, hpr⟩)
    · exact Or.inl h
    · exact Or.inr ⟨it, hit, hpr⟩
  · rintro (h | ⟨it, hit, hpr⟩)
    · exact Or.inl h
    · exact Or.inr ⟨_, ⟨it, hit, rfl⟩, hpr⟩

/-- Membership in the `removed` list produced by the first loop. -/
theorem phase1_removed_mem (nbp : List (Path × LibraryDefinition))
    (nbn : List (String × LibraryDefinition))
    (items : List (Path × LibraryDefinition)) (st : CompareState)
    (x : LibraryDefinition) :
    x ∈ (items.foldl (phase1Step nbp nbn) st).removed ↔
      x ∈ st.removed ∨ ∃ it ∈ items, x ∈
        (match pyDictGet nbp it.1 with
         | some _ => ([] : List LibraryDefinition)
         | none =>
           match pyDictGet nbn it.2.lib_name with
           | some _ => []
           | none => [it.2]) := by
  rw [foldl_proj_append (phase1Step nbp nbn) (fun st => st.removed) _
    (phase1Step_removed nbp nbn) items st]
  simp only [List.mem_append, List.mem_flatten, List.mem_map]
  constructor
  · rintro (h | ⟨l, ⟨it, hit, rfl⟩, hpr⟩)
    · exact Or.inl h
    · exact Or.inr ⟨it, hit, hpr⟩
  · rintro (h | ⟨it, hit, hpr⟩)
    · exact Or.inl h
    · exact Or.inr ⟨_, ⟨it, hit, rfl⟩, hpr⟩

/-- Membership in the handled set after the first comparison loop: a new
definition is handled exactly when some processed item matched it by path,
or failed the path lookup and matched it by name. -/
theorem phase1_handled_mem (nbp : List (Path × LibraryDefinition))
    (nbn : List (String × LibraryDefinition)) :
    ∀ (items : List (Path × LibraryDefinition)) (st : CompareState)
      (x : LibraryDefinition),
    x ∈ (items.foldl (phase1Step nbp nbn) st).handled ↔
      x ∈ st.handled ∨ ∃ it ∈ items,
        (pyDictGet nbp it.1 = some x ∨
          (pyDictGet nbp it.1 = none ∧ pyDictGet nbn it.2.lib_name = some x)) := by
  intro items
  induction items with
  | nil => intro st x; simp
  | cons it rest ih =>
    intro st x
    rw [List.foldl_cons, ih, List.exists_mem_cons_iff]
    cases hg : pyDictGet nbp it.1 with
    | none =>
      cases hn : pyDictGet nbn it.2.lib_name with
      | none =>
        simp only [phase1Step, hg, hn, Option.some.injEq, false_and, and_false,
          reduceCtorEq, false_or, or_false]
      | some nd =>
        simp only [phase1Step, hg, hn, pySetAdd_mem, Option.some.injEq, true_and,
          reduceCtorEq, false_or]
        constructor
        · rintro ((h | rfl) | h)
          · exact Or.inl h
          · exact Or.inr (Or.inl rfl)
          · exact Or.inr (Or.inr h)
        · rintro (h | (rfl | h))
          · exact Or.inl (Or.inl h)
          · exact Or.inl (Or.inr rfl)
          · exact Or.inr h
    | some nd =>
      have hstep : (phase1Step nbp nbn st it).handled = pySetAdd st.handled nd := by
        simp only [phase1Step, hg]
        split <;> rfl
      rw [hstep]
      simp only [pySetAdd_mem, Option.some.injEq, reduceCtorEq, false_and, or_false]
      constructor
      · rintro ((h | rfl) | h)
        · exact Or.inl h
        · exact Or.inr (Or.inl rfl)
        · exact Or.inr (Or.inr h)
      · rintro (h | (heq | h))
        · exact Or.inl (Or.inl h)
        · exact Or.inl (Or.inr heq.symm)
        · exact Or.inr h

/-- One step of the second comparison loop never touches `removed`,
`renamed` or `repathed`. -/
theorem phase2Step_fields (st : CompareState) (n : LibraryDefinition) :
    (phase2Step st n).removed = st.removed ∧
    (phase2Step st n).renamed = st.renamed ∧
    (phase2Step st n).repathed = st.repathed := by
  unfold phase2Step
  split <;> exact ⟨rfl, rfl, rfl⟩

/-- The second comparison loop never touches `removed`, `renamed` or
`repathed`. -/
theorem phase2_fields :
    ∀ (ys : List LibraryDefinition) (st : CompareState),
    (ys.foldl phase2Step st).removed = st.removed ∧
    (ys.foldl phase2Step st).renamed = st.renamed ∧
    (ys.foldl phase2Step st).repathed = st.repathed := by
  intro ys
  induction ys with
  | nil => intro st; exact ⟨rfl, rfl, rfl⟩
  | cons n rest ih =>
    intro st
    rw [List.foldl_cons]
    obtain ⟨h1, h2, h3⟩ := ih (phase2Step st n)
    obtain ⟨s1, s2, s3⟩ := phase2Step_fields st n
    exact ⟨h1.trans s1, h2.trans s2, h3.trans s3⟩

/-- Membership in `added` after the second comparison loop: a definition is
added exactly when it occurs in the list and was not already handled. -/
theorem phase2_added_mem :
    ∀ (ys : List LibraryDefinition) (st : CompareState) (x : LibraryDefinition),
    x ∈ (ys.foldl phase2Step st).added ↔
      x ∈ st.added ∨ (x ∈ ys ∧ x ∉ st.handled) := by
  intro ys
  induction ys with
  | nil => intro st x; simp
  | cons n rest ih =>
    intro st x
    rw [List.foldl_cons]
    by_cases hn : n ∈ st.handled
    · have hstep : phase2Step st n = st := by
        unfold phase2Step
        rw [if_pos hn]
      rw [hstep, ih]
      constructor
      · rintro (h | ⟨hx, hh⟩)
        · exact Or.inl h
        · exact Or.inr ⟨List.mem_cons_of_mem n hx, hh⟩
      · rintro (h | ⟨hx, hh⟩)
        · exact Or.inl h
        · rw [List.mem_cons] at hx
          rcases hx with rfl | hx
          · exact absurd hn hh
          · exact Or.inr ⟨hx, hh⟩
    · have hstep : phase2Step st n =
          { st with handled := pySetAdd st.handled n, added := st.added ++ [n] } := by
        unfold phase2Step
        rw [if_neg hn]
      rw [hstep, ih]
      simp only [List.mem_append, pySetAdd_mem, List.mem_cons,
        List.not_mem_nil, or_false, not_or]
      constructor
      · rintro ((h | rfl) | ⟨hx, hh, hne⟩)
        · exact Or.inl h
        · exact Or.inr ⟨Or.inl rfl, hn⟩
        · exact Or.inr ⟨Or.inr hx, hh⟩
      · rintro (h | ⟨rfl | hx, hh⟩)
        · exact Or.inl (Or.inl h)
        · exact Or.inl (Or.inr rfl)
        · by_cases hxe : x = n
          · exact Or.inl (Or.inr hxe)
          · exact Or.inr ⟨hx, hh, hxe⟩

/-- An element whose key is not shared by any other element of the list
survives dict building as its own entry. -/
theorem pyDictOf_mem_of_unique {A K V : Type} [DecidableEq K] (f : A → K × V) :
    ∀ (xs : List A) (a : A), a ∈ xs →
    (∀ b ∈ xs, (f b).1 = (f a).1 → f b = f a) →
    f a ∈ pyDictOf f xs := by
  have main : ∀ (xs : List A) (d : List (K × V)) (a : A),
      (f a ∈ d ∨ a ∈ xs) → (∀ b ∈ xs, (f b).1 = (f a).1 → f b = f a) →
      f a ∈ xs.foldl (fun d b => pyDictInsert d (f b).1 (f b).2) d := by
    intro xs
    induction xs with
    | nil =>
      rintro d a (h | h) _
      · exact h
      · exact absurd h (List.not_mem_nil a)
    | cons b rest ih =>
      intro d a hmem huniq
      rw [List.foldl_cons]
      have huniq' : ∀ c ∈ rest, (f c).1 = (f a).1 → f c = f a :=
        fun c hc => huniq c (List.mem_cons_of_mem b hc)
      rcases hmem with hin | hxs
      · by_cases hk : (f b).1 = (f a).1
        · have hfb : f b = f a := huniq b (List.mem_cons_self _ _) hk
          refine ih _ a (Or.inl ?_) huniq'
          have hself := pyDictInsert_self_mem d (f b).1 (f b).2
          rw [show ((f b).1, (f b).2) = f a from by rw [← hfb]] at hself
          exact hself
        · exact ih _ a (Or.inl (pyDictInsert_preserve hin
            (fun hcontra => hk hcontra.symm))) huniq'
      · rw [List.mem_cons] at hxs
        rcases hxs with rfl | hxs
        · refine ih _ a (Or.inl ?_) huniq'
          have hself := pyDictInsert_self_mem d (f a).1 (f a).2
          exact hself
        · exact ih _ a (Or.inr hxs) huniq'
  intro xs a ha hu
  exact main xs [] a (Or.inr ha) hu

/-- Keys of processed elements are never lost while building a dict. -/
theorem pyDictOf_key_mem {A K V : Type} [DecidableEq K] (f : A → K × V) :
    ∀ (xs : List A) (a : A), a ∈ xs → ∃ kv ∈ pyDictOf f xs, kv.1 = (f a).1 := by
  have hkeep : ∀ (d : List (K × V)) (k' : K) (v' : V) (k : K),
      (∃ kv ∈ d, kv.1 = k) → ∃ kv ∈ pyDictInsert d k' v', kv.1 = k := by
    intro d k' v' k ⟨kv, hkv, hk⟩
    by_cases he : kv.1 = k'
    · exact ⟨(k', v'), pyDictInsert_self_mem d k' v', by rw [← he, hk]⟩
    · exact ⟨kv, pyDictInsert_preserve hkv he, hk⟩
  have main : ∀ (xs : List A) (d : List (K × V)) (k : K),
      ((∃ kv ∈ d, kv.1 = k) ∨ ∃ a ∈ xs, (f a).1 = k) →
      ∃ kv ∈ xs.foldl (fun d b => pyDictInsert d (f b).1 (f b).2) d, kv.1 = k := by
    intro xs
    induction xs with
    | nil =>
      rintro d k (h | ⟨a, ha, _⟩)
      · exact h
      · exact absurd ha (List.not_mem_nil a)
    | cons b rest ih =>
      intro d k hmem
      rw [List.foldl_cons]
      rcases hmem with hin | ⟨a, ha, hk⟩
      · exact ih _ k (Or.inl (hkeep d (f b).1 (f b).2 k hin))
      · rw [List.mem_cons] at ha
        rcases ha with rfl | ha
        · exact ih _ k (Or.inl ⟨((f a).1, (f a).2),
            pyDictInsert_self_mem d (f a).1 (f a).2, hk⟩)
        · exact ih _ k (Or.inr ⟨a, ha, hk⟩)
  intro xs a ha
  exact main xs [] (f a).1 (Or.inr ⟨a, ha, rfl⟩)

/-- The removed list of a comparison is the one of the first loop. -/
theorem compareResolved_removed (old_lib_defs new_lib_defs : List LibraryDefinition) :
    (LibraryMapChanges.compareResolved old_lib_defs new_lib_defs).removed_libs =
    ((pyDictOf (fun ld => (ld.lib_path, ld)) old_lib_defs).foldl
      (phase1Step (pyDictOf (fun ld => (ld.lib_path, ld)) new_lib_defs)
        (pyDictOf (fun ld => (ld.lib_name, ld)) new_lib_defs)) {}).removed :=
  (phase2_fields new_lib_defs _).1

/-- The renamed list of a comparison is the one of the first loop. -/
theorem compareResolved_renamed (old_lib_defs new_lib_defs : List LibraryDefinition) :
    (LibraryMapChanges.compareResolved old_lib_defs new_lib_defs).renamed_libs =
    ((pyDictOf (fun ld => (ld.lib_path, ld)) old_lib_defs).foldl
      (phase1Step (pyDictOf (fun ld => (ld.lib_path, ld)) new_lib_defs)
        (pyDictOf (fun ld => (ld.lib_name, ld)) new_lib_defs)) {}).renamed :=
  (phase2_fields new_lib_defs _).2.1

/-- The repathed list of a comparison is the one of the first loop. -/
theorem compareResolved_repathed (old_lib_defs new_lib_defs : List LibraryDefinition) :
    (LibraryMapChanges.compareResolved old_lib_defs new_lib_defs).repathed_libs =
    ((pyDictOf (fun ld => (ld.lib_path, ld)) old_lib_defs).foldl
      (phase1Step (pyDictOf (fun ld => (ld.lib_path, ld)) new_lib_defs)
        (pyDictOf (fun ld => (ld.lib_name, ld)) new_lib_defs)) {}).repathed :=
  (phase2_fields new_lib_defs _).2.2

/-- A definition is added by a comparison exactly when it occurs in the new
list and was not handled by the first loop. -/
theorem compareResolved_added_mem (old_lib_defs new_lib_defs : List LibraryDefinition)
    (x : LibraryDefinition) :
    x ∈ (LibraryMapChanges.compareResolved old_lib_defs new_lib_defs).added_libs ↔
    x ∈ new_lib_defs ∧ x ∉
      ((pyDictOf (fun ld => (ld.lib_path, ld)) old_lib_defs).foldl
        (phase1Step (pyDictOf (fun ld => (ld.lib_path, ld)) new_lib_defs)
          (pyDictOf (fun ld => (ld.lib_name, ld)) new_lib_defs)) {}).handled := by
  show x ∈ (new_lib_defs.foldl phase2Step _).added ↔ _
  rw [phase2_added_mem, phase1_added_eq]
  simp

/-- C6 as amended: an old definition `d` whose resolved path and name both
differ from every new definition's is classified as removed — provided no
other old definition shares `d`'s resolved path, since the path-keyed dict
keeps only the last definition per path — and never as renamed or repathed;
symmetrically, a new definition `n` whose path and name differ from every
old definition's is classified as added and never as the new side of a
rename or repath; and path matching takes precedence over name matching: a
repathed pair can only arise when no new definition shares the old
definition's path at all. -/
theorem ambiguous_change_is_removed_plus_added
    (old_lib_defs new_lib_defs : List LibraryDefinition) (d n : LibraryDefinition)
    (hd : d ∈ old_lib_defs)
    (hdu : ∀ b ∈ old_lib_defs, b.lib_path = d.lib_path → b = d)
    (hdp : ∀ nd ∈ new_lib_defs, nd.lib_path ≠ d.lib_path)
    (hdn : ∀ nd ∈ new_lib_defs, nd.lib_name ≠ d.lib_name)
    (hn : n ∈ new_lib_defs)
    (hnp : ∀ od ∈ old_lib_defs, od.lib_path ≠ n.lib_path)
    (hnn : ∀ od ∈ old_lib_defs, od.lib_name ≠ n.lib_name) :
    d ∈ (LibraryMapChanges.compareResolved old_lib_defs new_lib_defs).removed_libs ∧
    n ∈ (LibraryMapChanges.compareResolved old_lib_defs new_lib_defs).added_libs ∧
    ¬renamedOldSide (LibraryMapChanges.compareResolved old_lib_defs new_lib_defs) d ∧
    ¬repathedOldSide (LibraryMapChanges.compareResolved old_lib_defs new_lib_defs) d ∧
    ¬renamedNewSide (LibraryMapChanges.compareResolved old_lib_defs new_lib_defs) n ∧
    ¬repathedNewSide (LibraryMapChanges.compareResolved old_lib_defs new_lib_defs) n ∧
    (∀ pr ∈ (LibraryMapChanges.compareResolved old_lib_defs new_lib_defs).repathed_libs,
      ∀ nd ∈ new_lib_defs, nd.lib_path ≠ pr.1.lib_path) := by
  have hobpinv : ∀ kv ∈ pyDictOf (fun ld => (ld.lib_path, ld)) old_lib_defs,
      kv.2 ∈ old_lib_defs ∧ kv.1 = kv.2.lib_path :=
    pyDictOf_mem_invariant _ _ old_lib_defs (fun a ha => ⟨ha, rfl⟩)
  have hnbpinv : ∀ kv ∈ pyDictOf (fun ld => (ld.lib_path, ld)) new_lib_defs,
      kv.2 ∈ new_lib_defs ∧ kv.1 = kv.2.lib_path :=
    pyDictOf_mem_invariant _ _ new_lib_defs (fun a ha => ⟨ha, rfl⟩)
  have hnbninv : ∀ kv ∈ pyDictOf (fun ld => (ld.lib_name, ld)) new_lib_defs,
      kv.2 ∈ new_lib_defs ∧ kv.1 = kv.2.lib_name :=
    pyDictOf_mem_invariant _ _ new_lib_defs (fun a ha => ⟨ha, rfl⟩)
  have hnbp_none : ∀ p : Path, (∀ nd ∈ new_lib_defs, nd.lib_path ≠ p) →
      pyDictGet (pyDictOf (fun ld => (ld.lib_path, ld)) new_lib_defs) p = none := by
    intro p hp
    rw [pyDictGet_none_iff]
    intro kv hkv
    obtain ⟨h1, h2⟩ := hnbpinv kv hkv
    rw [h2]
    exact hp kv.2 h1
  have hnbn_none : ∀ s : String, (∀ nd ∈ new_lib_defs, nd.lib_name ≠ s) →
      pyDictGet (pyDictOf (fun ld => (ld.lib_name, ld)) new_lib_defs) s = none := by
    intro s hp
    rw [pyDictGet_none_iff]
    intro kv hkv
    obtain ⟨h1, h2⟩ := hnbninv kv hkv
    rw [h2]
    exact hp kv.2 h1
  have hnbp_some : ∀ (p : Path) (nd : LibraryDefinition),
      pyDictGet (pyDictOf (fun ld => (ld.lib_path, ld)) new_lib_defs) p = some nd →
      nd ∈ new_lib_defs ∧ nd.lib_path = p := by
    intro p nd h
    obtain ⟨h1, h2⟩ := hnbpinv (p, nd) (pyDictGet_some_mem h)
    exact ⟨h1, h2.symm⟩
  have hnbn_some : ∀ (s : String) (nd : LibraryDefinition),
      pyDictGet (pyDictOf (fun ld => (ld.lib_name, ld)) new_lib_defs) s = some nd →
      nd ∈ new_lib_defs ∧ nd.lib_name = s := by
    intro s nd h
    obtain ⟨h1, h2⟩ := hnbninv (s, nd) (pyDictGet_some_mem h)
    exact ⟨h1, h2.symm⟩
  have hdmem : (d.lib_path, d) ∈ pyDictOf (fun ld => (ld.lib_path, ld)) old_lib_defs :=
    pyDictOf_mem_of_unique (fun ld => (ld.lib_path, ld)) old_lib_defs d hd
      (fun b hb hk => by rw [hdu b hb hk])
  have hgetp : pyDictGet (pyDictOf (fun ld => (ld.lib_path, ld)) new_lib_defs)
      d.lib_path = none := hnbp_none d.lib_path hdp
  have hgetn : pyDictGet (pyDictOf (fun ld => (ld.lib_name, ld)) new_lib_defs)
      d.lib_name = none := hnbn_none d.lib_name hdn
  refine ⟨?_, ?_, ?_, ?_, ?_, ?_, ?_⟩
  · rw [compareResolved_removed, phase1_removed_mem]
    refine Or.inr ⟨(d.lib_path, d), hdmem, ?_⟩
    simp only [hgetp, hgetn, List.mem_singleton]
  · rw [compareResolved_added_mem]
    refine ⟨hn, ?_⟩
    rw [phase1_handled_mem]
    rintro (h | ⟨it, hit, hcase⟩)
    · exact absurd h (List.not_mem_nil n)
    · obtain ⟨hit2, hit1⟩ := hobpinv it hit
      rcases hcase with hps | ⟨_, hns⟩
      · obtain ⟨_, hp⟩ := hnbp_some it.1 n hps
        exact hnp it.2 hit2 (by rw [hp, hit1])
      · obtain ⟨_, hnm⟩ := hnbn_some it.2.lib_name n hns
        exact hnn it.2 hit2 hnm.symm
  · rintro ⟨pr, hpr, hpr1⟩
    rw [compareResolved_renamed, phase1_renamed_mem] at hpr
    rcases hpr with h | ⟨it, hit, hm⟩
    · exact absurd h (List.not_mem_nil pr)
    · obtain ⟨hit2, hit1⟩ := hobpinv it hit
      cases hg : pyDictGet (pyDictOf (fun ld => (ld.lib_path, ld)) new_lib_defs)
          it.1 with
      | none => simp only [hg, List.not_mem_nil] at hm
      | some nd =>
        simp only [hg] at hm
        by_cases hne : it.2 ≠ nd
        · rw [if_pos hne, List.mem_singleton] at hm
          obtain ⟨hnd1, hnd2⟩ := hnbp_some it.1 nd hg
          refine hdp nd hnd1 ?_
          rw [hnd2, hit1, show it.2 = d from by rw [← hpr1, hm]]
        · rw [if_neg hne] at hm
          exact absurd hm (List.not_mem_nil pr)
  · rintro ⟨pr, hpr, hpr1⟩
    rw [compareResolved_repathed, phase1_repathed_mem] at hpr
    rcases hpr with h | ⟨it, hit, hm⟩
    · exact absurd h (List.not_mem_nil pr)
    · obtain ⟨hit2, hit1⟩ := hobpinv it hit
      cases hg : pyDictGet (pyDictOf (fun ld => (ld.lib_path, ld)) new_lib_defs)
          it.1 with
      | some nd => simp only [hg, List.not_mem_nil] at hm
      | none =>
        simp only [hg] at hm
        cases hgn : pyDictGet (pyDictOf (fun ld => (ld.lib_name, ld)) new_lib_defs)
            it.2.lib_name with
        | none => simp only [hgn, List.not_mem_nil] at hm
        | some nd =>
          simp only [hgn, List.mem_singleton] at hm
          obtain ⟨hnd1, hnd2⟩ := hnbn_some it.2.lib_name nd hgn
          refine hdn nd hnd1 ?_
          rw [hnd2, show it.2 = d from by rw [← hpr1, hm]]
  · rintro ⟨pr, hpr, hpr2⟩
    rw [compareResolved_renamed, phase1_renamed_mem] at hpr
    rcases hpr with h | ⟨it, hit, hm⟩
    · exact absurd h (List.not_mem_nil pr)
    · obtain ⟨hit2, hit1⟩ := hobpinv it hit
      cases hg : pyDictGet (pyDictOf (fun ld => (ld.lib_path, ld)) new_lib_defs)
          it.1 with
      | none => simp only [hg, List.not_mem_nil] at hm
      | some nd =>
        simp only [hg] at hm
        by_cases hne : it.2 ≠ nd
        · rw [if_pos hne, List.mem_singleton] at hm
          obtain ⟨hnd1, hnd2⟩ := hnbp_some it.1 nd hg
          refine hnp it.2 hit2 ?_
          rw [show n = nd from by rw [← hpr2, hm], hnd2, hit1]
        · rw [if_neg hne] at hm
          exact absurd hm (List.not_mem_nil pr)
  · rintro ⟨pr, hpr, hpr2⟩
    rw [compareResolved_repathed, phase1_repathed_mem] at hpr
    rcases hpr with h | ⟨it, hit, hm⟩
    · exact absurd h (List.not_mem_nil pr)
    · obtain ⟨hit2, hit1⟩ := hobpinv it hit
      cases hg : pyDictGet (pyDictOf (fun ld => (ld.lib_path, ld)) new_lib_defs)
          it.1 with
      | some nd => simp only [hg, List.not_mem_nil] at hm
      | none =>
        simp only [hg] at hm
        cases hgn : pyDictGet (pyDictOf (fun ld => (ld.lib_name, ld)) new_lib_defs)
            it.2.lib_name with
        | none => simp only [hgn, List.not_mem_nil] at hm
        | some nd =>
          simp only [hgn, List.mem_singleton] at hm
          obtain ⟨hnd1, hnd2⟩ := hnbn_some it.2.lib_name nd hgn
          refine hnn it.2 hit2 ?_
          rw [← hnd2, show nd = n from by rw [← hpr2, hm]]
  · intro pr hpr nd hnd
    rw [compareResolved_repathed, phase1_repathed_mem] at hpr
    rcases hpr with h | ⟨it, hit, hm⟩
    · exact absurd h (List.not_mem_nil pr)
    · obtain ⟨hit2, hit1⟩ := hobpinv it hit
      cases hg : pyDictGet (pyDictOf (fun ld => (ld.lib_path, ld)) new_lib_defs)
          it.1 with
      | some nd2 => simp only [hg, List.not_mem_nil] at hm
      | none =>
        simp only [hg] at hm
        cases hgn : pyDictGet (pyDictOf (fun ld => (ld.lib_name, ld)) new_lib_defs)
            it.2.lib_name with
        | none => simp only [hgn, List.not_mem_nil] at hm
        | some nd2 =>
          simp only [hgn, List.mem_singleton] at hm
          intro hcontra
          obtain ⟨kv, hkv, hkveq⟩ := pyDictOf_key_mem
            (fun ld => (ld.lib_path, ld)) new_lib_defs nd hnd
          rw [pyDictGet_none_iff] at hg
          refine hg kv hkv ?_
          rw [hkveq]
          show nd.lib_path = it.1
          rw [hcontra, show pr.1 = it.2 from by rw [hm], hit1]

/-- Witness for C6: `old = [(A, p1)]`, `new = [(B, p2)]` — both fields
changed — yields one removed plus one added entry. -/
theorem ambiguous_change_witness :
    (⟨"A", path1⟩ : LibraryDefinition) ∈ [(⟨"A", path1⟩ : LibraryDefinition)] ∧
    (⟨"A", path1⟩ : LibraryDefinition) ∈
      (LibraryMapChanges.compareResolved [⟨"A", path1⟩] [⟨"B", path2⟩]).removed_libs ∧
    (⟨"B", path2⟩ : LibraryDefinition) ∈
      (LibraryMapChanges.compareResolved [⟨"A", path1⟩] [⟨"B", path2⟩]).added_libs := by
  have h := ambiguous_change_is_removed_plus_added [⟨"A", path1⟩] [⟨"B", path2⟩]
    ⟨"A", path1⟩ ⟨"B", path2⟩ (by decide) (by decide) (by decide) (by decide)
    (by decide) (by decide) (by decide)
  exact ⟨by decide, h.1, h.2.1⟩

/-- Exactly-one from the first disjunct. -/
theorem exactlyOne_first {a b c d : Prop} (ha : a) (hb : ¬b) (hc : ¬c)
    (hd : ¬d) : ExactlyOne a b c d :=
  ⟨Or.inl ha, fun h => hb h.2, fun h => hc h.2, fun h => hd h.2,
    fun h => hb h.1, fun h => hb h.1, fun h => hc h.1⟩

/-- Exactly-one from the second disjunct. -/
theorem exactlyOne_second {a b c d : Prop} (ha : ¬a) (hb : b) (hc : ¬c)
    (hd : ¬d) : ExactlyOne a b c d :=
  ⟨Or.inr (Or.inl hb), fun h => ha h.1, fun h => ha h.1, fun h => ha h.1,
    fun h => hc h.2, fun h => hd h.2, fun h => hc h.1⟩

/-- Exactly-one from the third disjunct. -/
theorem exactlyOne_third {a b c d : Prop} (ha : ¬a) (hb : ¬b) (hc : c)
    (hd : ¬d) : ExactlyOne a b c d :=
  ⟨Or.inr (Or.inr (Or.inl hc)), fun h => ha h.1, fun h => ha h.1,
    fun h => ha h.1, fun h => hb h.1, fun h => hb h.1, fun h => hd h.2⟩

/-- Exactly-one from the fourth disjunct. -/
theorem exactlyOne_fourth {a b c d : Prop} (ha : ¬a) (hb : ¬b) (hc : ¬c)
    (hd : d) : ExactlyOne a b c d :=
  ⟨Or.inr (Or.inr (Or.inr hd)), fun h => ha h.1, fun h => ha h.1,
    fun h => ha h.1, fun h => hb h.1, fun h => hb h.1, fun h => hc h.1⟩

/-- C3 as amended: when the resolved paths are pairwise distinct on each
side — as the path-keyed dicts of the algorithm presuppose — every old
definition falls in exactly one of {unchanged (present verbatim in the new
list), renamed (old side), repathed (old side), removed}; every new
definition falls in at least one of {unchanged, renamed (new side),
repathed (new side), added}; and an added definition is in no other class.
A new definition can still land in two of the non-added classes when one
old definition matches it by path and another by name, as the
counterexample shows, so the new side is a covering, not a partition. -/
theorem compare_partitions_distinct_paths
    (old_lib_defs new_lib_defs : List LibraryDefinition)
    (hOld : (old_lib_defs.map (fun d => d.lib_path)).Nodup)
    (hNew : (new_lib_defs.map (fun d => d.lib_path)).Nodup) :
    (∀ d ∈ old_lib_defs, ExactlyOne (d ∈ new_lib_defs)
      (renamedOldSide (LibraryMapChanges.compareResolved old_lib_defs new_lib_defs) d)
      (repathedOldSide (LibraryMapChanges.compareResolved old_lib_defs new_lib_defs) d)
      (d ∈ (LibraryMapChanges.compareResolved old_lib_defs
        new_lib_defs).removed_libs)) ∧
    (∀ n ∈ new_lib_defs,
      n ∈ old_lib_defs ∨
      renamedNewSide (LibraryMapChanges.compareResolved old_lib_defs new_lib_defs) n ∨
      repathedNewSide (LibraryMapChanges.compareResolved old_lib_defs new_lib_defs) n ∨
      n ∈ (LibraryMapChanges.compareResolved old_lib_defs new_lib_defs).added_libs) ∧
    (∀ n ∈ (LibraryMapChanges.compareResolved old_lib_defs new_lib_defs).added_libs,
      n ∉ old_lib_defs ∧
      ¬renamedNewSide (LibraryMapChanges.compareResolved old_lib_defs
        new_lib_defs) n ∧
      ¬repathedNewSide (LibraryMapChanges.compareResolved old_lib_defs
        new_lib_defs) n) := by
  have hobp : pyDictOf (fun ld => (ld.lib_path, ld)) old_lib_defs =
      old_lib_defs.map (fun d => (d.lib_path, d)) :=
    pyDictOf_nodup _ old_lib_defs hOld
  have hnbpmap : pyDictOf (fun ld => (ld.lib_path, ld)) new_lib_defs =
      new_lib_defs.map (fun d => (d.lib_path, d)) :=
    pyDictOf_nodup _ new_lib_defs hNew
  have hnbpinv : ∀ kv ∈ pyDictOf (fun ld => (ld.lib_path, ld)) new_lib_defs,
      kv.2 ∈ new_lib_defs ∧ kv.1 = kv.2.lib_path :=
    pyDictOf_mem_invariant _ _ new_lib_defs (fun a ha => ⟨ha, rfl⟩)
  have hnbp_some : ∀ (p : Path) (nd : LibraryDefinition),
      pyDictGet (pyDictOf (fun ld => (ld.lib_path, ld)) new_lib_defs) p = some nd →
      nd ∈ new_lib_defs ∧ nd.lib_path = p := by
    intro p nd h
    obtain ⟨h1, h2⟩ := hnbpinv (p, nd) (pyDictGet_some_mem h)
    exact ⟨h1, h2.symm⟩
  have hget_of_mem : ∀ nd ∈ new_lib_defs,
      pyDictGet (pyDictOf (fun ld => (ld.lib_path, ld)) new_lib_defs)
        nd.lib_path = some nd := by
    intro nd hnd
    rw [hnbpmap]
    refine pyDictGet_of_mem_nodupkeys _ nd.lib_path nd ?_ ?_
    · rw [List.mem_map]
      exact ⟨nd, hnd, rfl⟩
    · rw [List.map_map]
      exact hNew
  have hren : ∀ pr : LibraryDefinition × LibraryDefinition,
      pr ∈ (LibraryMapChanges.compareResolved old_lib_defs
        new_lib_defs).renamed_libs ↔
      ∃ od ∈ old_lib_defs,
        pyDictGet (pyDictOf (fun ld => (ld.lib_path, ld)) new_lib_defs)
          od.lib_path = some pr.2 ∧ pr.1 = od ∧ od ≠ pr.2 := by
    intro pr
    rw [compareResolved_renamed, hobp, phase1_renamed_mem]
    simp only [List.not_mem_nil, false_or, List.mem_map, exists_exists_and_eq_and]
    constructor
    · rintro ⟨od, hod, hm⟩
      cases hg : pyDictGet (pyDictOf (fun ld => (ld.lib_path, ld)) new_lib_defs)
          od.lib_path with
      | none => simp only [hg, List.not_mem_nil] at hm
      | some nd =>
        simp only [hg] at hm
        by_cases hne : od ≠ nd
        · rw [if_pos hne, List.mem_singleton] at hm
          refine ⟨od, hod, ?_, ?_, ?_⟩
          · rw [hm]
            exact hg
          · rw [hm]
          · intro hcontra
            rw [hm] at hcontra
            exact hne hcontra
        · rw [if_neg hne] at hm
          exact absurd hm (List.not_mem_nil pr)
    · rintro ⟨od, hod, hg, hp1, hne⟩
      refine ⟨od, hod, ?_⟩
      simp only [hg]
      rw [if_pos hne, List.mem_singleton, ← hp1]
  have hrep : ∀ pr : LibraryDefinition × LibraryDefinition,
      pr ∈ (LibraryMapChanges.compareResolved old_lib_defs
        new_lib_defs).repathed_libs ↔
      ∃ od ∈ old_lib_defs,
        pyDictGet (pyDictOf (fun ld => (ld.lib_path, ld)) new_lib_defs)
          od.lib_path = none ∧
        pyDictGet (pyDictOf (fun ld => (ld.lib_name, ld)) new_lib_defs)
          od.lib_name = some pr.2 ∧ pr.1 = od := by
    intro pr
    rw [compareResolved_repathed, hobp, phase1_repathed_mem]
    simp only [List.not_mem_nil, false_or, List.mem_map, exists_exists_and_eq_and]
    constructor
    · rintro ⟨od, hod, hm⟩
      cases hg : pyDictGet (pyDictOf (fun ld => (ld.lib_path, ld)) new_lib_defs)
          od.lib_path with
      | some nd => simp only [hg, List.not_mem_nil] at hm
      | none =>
        simp only [hg] at hm
        cases hgn : pyDictGet (pyDictOf (fun ld => (ld.lib_name, ld)) new_lib_defs)
            od.lib_name with
        | none => simp only [hgn, List.not_mem_nil] at hm
        | some nd =>
          simp only [hgn, List.mem_singleton] at hm
          refine ⟨od, hod, hg, ?_, ?_⟩
          · rw [hm]
            exact hgn
          · rw [hm]
    · rintro ⟨od, hod, hg, hgn, hp1⟩
      refine ⟨od, hod, ?_⟩
      simp only [hg, hgn]
      rw [List.mem_singleton, ← hp1]
  have hrem : ∀ x : LibraryDefinition,
      x ∈ (LibraryMapChanges.compareResolved old_lib_defs
        new_lib_defs).removed_libs ↔
      x ∈ old_lib_defs ∧
        pyDictGet (pyDictOf (fun ld => (ld.lib_path, ld)) new_lib_defs)
          x.lib_path = none ∧
        pyDictGet (pyDictOf (fun ld => (ld.lib_name, ld)) new_lib_defs)
          x.lib_name = none := by
    intro x
    rw [compareResolved_removed, hobp, phase1_removed_mem]
    simp only [List.not_mem_nil, false_or, List.mem_map, exists_exists_and_eq_and]
    constructor
    · rintro ⟨od, hod, hm⟩
      cases hg : pyDictGet (pyDictOf (fun ld => (ld.lib_path, ld)) new_lib_defs)
          od.lib_path with
      | some nd => simp only [hg, List.not_mem_nil] at hm
      | none =>
        simp only [hg] at hm
        cases hgn : pyDictGet (pyDictOf (fun ld => (ld.lib_name, ld)) new_lib_defs)
            od.lib_name with
        | some nd => simp only [hgn, List.not_mem_nil] at hm
        | none =>
          simp only [hgn, List.mem_singleton] at hm
          subst hm
          exact ⟨hod, hg, hgn⟩
    · rintro ⟨hx, hg, hgn⟩
      refine ⟨x, hx, ?_⟩
      simp only [hg, hgn]
      rw [List.mem_singleton]
  have hadd_iff : ∀ x : LibraryDefinition,
      x ∈ (LibraryMapChanges.compareResolved old_lib_defs
        new_lib_defs).added_libs ↔
      x ∈ new_lib_defs ∧ ¬∃ od ∈ old_lib_defs,
        (pyDictGet (pyDictOf (fun ld => (ld.lib_path, ld)) new_lib_defs)
          od.lib_path = some x ∨
        (pyDictGet (pyDictOf (fun ld => (ld.lib_path, ld)) new_lib_defs)
          od.lib_path = none ∧
         pyDictGet (pyDictOf (fun ld => (ld.lib_name, ld)) new_lib_defs)
          od.lib_name = some x)) := by
    intro x
    rw [compareResolved_added_mem, hobp]
    constructor
    · rintro ⟨hxnew, hh⟩
      refine ⟨hxnew, ?_⟩
      intro hcon
      refine hh ?_
      rw [phase1_handled_mem]
      right
      obtain ⟨od, hod, hcase⟩ := hcon
      refine ⟨(od.lib_path, od), List.mem_map.mpr ⟨od, hod, rfl⟩, hcase⟩
    · rintro ⟨hxnew, hh⟩
      refine ⟨hxnew, ?_⟩
      intro hmem
      rw [phase1_handled_mem] at hmem
      rcases hmem with h | ⟨it, hit, hcase⟩
      · exact absurd h (List.not_mem_nil x)
      · rw [List.mem_map] at hit
        obtain ⟨od, hod, rfl⟩ := hit
        exact hh ⟨od, hod, hcase⟩
  refine ⟨?_, ?_, ?_⟩
  · intro d hd
    cases hg : pyDictGet (pyDictOf (fun ld => (ld.lib_path, ld)) new_lib_defs)
        d.lib_path with
    | some nd =>
      by_cases hne : d = nd
      · subst hne
        refine exactlyOne_first (hnbp_some _ _ hg).1 ?_ ?_ ?_
        · rintro ⟨pr, hpr, hpr1⟩
          rw [hren] at hpr
          obtain ⟨od, hod, hgo, hp1, hnee⟩ := hpr
          have hod_d : od = d := by rw [← hp1, hpr1]
          subst hod_d
          rw [hg] at hgo
          injection hgo with hgo
          exact hnee hgo
        · rintro ⟨pr, hpr, hpr1⟩
          rw [hrep] at hpr
          obtain ⟨od, hod, hgo, _, hp1⟩ := hpr
          have hod_d : od = d := by rw [← hp1, hpr1]
          subst hod_d
          rw [hg] at hgo
          exact Option.noConfusion hgo
        · intro hrm
          rw [hrem] at hrm
          obtain ⟨_, hnone, _⟩ := hrm
          rw [hg] at hnone
          exact Option.noConfusion hnone
      · refine exactlyOne_second ?_ ?_ ?_ ?_
        · intro hmem
          have hself := hget_of_mem d hmem
          rw [hg] at hself
          injection hself with hself
          exact hne hself.symm
        · exact ⟨(d, nd), (hren _).mpr ⟨d, hd, hg, rfl, hne⟩, rfl⟩
        · rintro ⟨pr, hpr, hpr1⟩
          rw [hrep] at hpr
          obtain ⟨od, hod, hgo, _, hp1⟩ := hpr
          have hod_d : od = d := by rw [← hp1, hpr1]
          subst hod_d
          rw [hg] at hgo
          exact Option.noConfusion hgo
        · intro hrm
          rw [hrem] at hrm
          obtain ⟨_, hnone, _⟩ := hrm
          rw [hg] at hnone
          exact Option.noConfusion hnone
    | none =>
      cases hgn : pyDictGet (pyDictOf (fun ld => (ld.lib_name, ld)) new_lib_defs)
          d.lib_name with
      | some nd =>
        refine exactlyOne_third ?_ ?_ ?_ ?_
        · intro hmem
          have hself := hget_of_mem d hmem
          rw [hg] at hself
          exact Option.noConfusion hself
        · rintro ⟨pr, hpr, hpr1⟩
          rw [hren] at hpr
          obtain ⟨od, hod, hgo, hp1, _⟩ := hpr
          have hod_d : od = d := by rw [← hp1, hpr1]
          subst hod_d
          rw [hg] at hgo
          exact Option.noConfusion hgo
        · exact ⟨(d, nd), (hrep _).mpr ⟨d, hd, hg, hgn, rfl⟩, rfl⟩
        · intro hrm
          rw [hrem] at hrm
          obtain ⟨_, _, hn2⟩ := hrm
          rw [hgn] at hn2
          exact Option.noConfusion hn2
      | none =>
        refine exactlyOne_fourth ?_ ?_ ?_ ((hrem d).mpr ⟨hd, hg, hgn⟩)
        · intro hmem
          have hself := hget_of_mem d hmem
          rw [hg] at hself
          exact Option.noConfusion hself
        · rintro ⟨pr, hpr, hpr1⟩
          rw [hren] at hpr
          obtain ⟨od, hod, hgo, hp1, _⟩ := hpr
          have hod_d : od = d := by rw [← hp1, hpr1]
          subst hod_d
          rw [hg] at hgo
          exact Option.noConfusion hgo
        · rintro ⟨pr, hpr, hpr1⟩
          rw [hrep] at hpr
          obtain ⟨od, hod, _, hns, hp1⟩ := hpr
          have hod_d : od = d := by rw [← hp1, hpr1]
          subst hod_d
          rw [hgn] at hns
          exact Option.noConfusion hns
  · intro n hn
    by_cases hadd : n ∈ (LibraryMapChanges.compareResolved old_lib_defs
        new_lib_defs).added_libs
    · exact Or.inr (Or.inr (Or.inr hadd))
    · rw [hadd_iff] at hadd
      have hhand : ∃ od ∈ old_lib_defs,
          (pyDictGet (pyDictOf (fun ld => (ld.lib_path, ld)) new_lib_defs)
            od.lib_path = some n ∨
          (pyDictGet (pyDictOf (fun ld => (ld.lib_path, ld)) new_lib_defs)
            od.lib_path = none ∧
           pyDictGet (pyDictOf (fun ld => (ld.lib_name, ld)) new_lib_defs)
            od.lib_name = some n)) := by
        by_contra hcon
        exact hadd ⟨hn, hcon⟩
      obtain ⟨od, hod, hcase⟩ := hhand
      rcases hcase with hps | ⟨hpn, hns⟩
      · by_cases heq : od = n
        · subst heq
          exact Or.inl hod
        · exact Or.inr (Or.inl ⟨(od, n), (hren _).mpr ⟨od, hod, hps, rfl, heq⟩, rfl⟩)
      · exact Or.inr (Or.inr (Or.inl
          ⟨(od, n), (hrep _).mpr ⟨od, hod, hpn, hns, rfl⟩, rfl⟩))
  · intro n hadd
    rw [hadd_iff] at hadd
    obtain ⟨hnnew, hnh⟩ := hadd
    refine ⟨?_, ?_, ?_⟩
    · intro hnold
      exact hnh ⟨n, hnold, Or.inl (hget_of_mem n hnnew)⟩
    · rintro ⟨pr, hpr, hpr2⟩
      rw [hren] at hpr
      obtain ⟨od, hod, hgo, _, _⟩ := hpr
      refine hnh ⟨od, hod, Or.inl ?_⟩
      rw [hgo, hpr2]
    · rintro ⟨pr, hpr, hpr2⟩
      rw [hrep] at hpr
      obtain ⟨od, hod, hgo, hns, _⟩ := hpr
      refine hnh ⟨od, hod, Or.inr ⟨hgo, ?_⟩⟩
      rw [hns, hpr2]

/-- Witness for C3: the rename scenario `old = [(A, p1)]`,
`new = [(B, p1)]` has distinct paths on both sides, and the old definition
falls in exactly one class. -/
theorem compare_partitions_witness :
    (([(⟨"A", path1⟩ : LibraryDefinition)].map (fun d => d.lib_path)).Nodup) ∧
    (([(⟨"B", path1⟩ : LibraryDefinition)].map (fun d => d.lib_path)).Nodup) ∧
    ExactlyOne
      ((⟨"A", path1⟩ : LibraryDefinition) ∈ [(⟨"B", path1⟩ : LibraryDefinition)])
      (renamedOldSide
        (LibraryMapChanges.compareResolved [⟨"A", path1⟩] [⟨"B", path1⟩])
        ⟨"A", path1⟩)
      (repathedOldSide
        (LibraryMapChanges.compareResolved [⟨"A", path1⟩] [⟨"B", path1⟩])
        ⟨"A", path1⟩)
      ((⟨"A", path1⟩ : LibraryDefinition) ∈
        (LibraryMapChanges.compareResolved [⟨"A", path1⟩]
          [⟨"B", path1⟩]).removed_libs) := by
  have h1 : (([(⟨"A", path1⟩ : LibraryDefinition)].map
      (fun d => d.lib_path)).Nodup) := by decide
  have h2 : (([(⟨"B", path1⟩ : LibraryDefinition)].map
      (fun d => d.lib_path)).Nodup) := by decide
  exact ⟨h1, h2, (compare_partitions_distinct_paths [⟨"A", path1⟩]
    [⟨"B", path1⟩] h1 h2).1 ⟨"A", path1⟩ (by decide)⟩

end LibMgr
